import Mathlib

/-!
Shallow embedding of the validation orchestrator of
`src/Field.tsx` (the `Field` component of
`final-form-field-validation`).

The component's whole behaviour lives in the `validate` closure
(lines 56-116 of `Field.tsx`):

```
const validate = (value, allValues, meta) =>
  new Promise(async (resolve) => {
    if (resetTimeout) { resetTimeout(); }
    const validatorFunctions =
      Array.isArray(validators) && validators ? [...validators] : [];
    if (validatorFunctions.length > 0) {
      const results = await Promise.all(
        validatorFunctions.map((validator) => validator(value, allValues, meta)));
      const errors = results.filter((v) => v !== undefined);
      if (errors.length > 0) { resolve(errors); return; }
    }
    const asyncValidatorFunctions =
      Array.isArray(asyncValidators) && asyncValidators ? [...asyncValidators] : [];
    if (asyncValidatorFunctions.length === 0) { resolve(undefined); return; }
    async function asyncValidation() {
      const asyncResults = await Promise.all(
        asyncValidatorFunctions.map((validator) => validator(value, allValues, meta)));
      const asyncErrors = asyncResults.filter((v) => v !== undefined);
      resolve(asyncErrors.length === 0 ? undefined : asyncErrors);
    }
    const timeout = setTimeout(asyncValidation, asyncValidatorsDebounce);
    const clearTimeoutCallback = () => { clearTimeout(timeout); resolve(undefined); };
    storeResetTimeout(() => clearTimeoutCallback);
  });
```

We embed this as a small-step machine over an explicit field-instance
state.  The genuine suspension points of the JavaScript code become
separate scheduler events:

* `Event.invoke` - a call of `validate`.  The Promise executor runs
  synchronously up to its first `await`: it calls the stored
  `resetTimeout` callback, copies the `validators` prop, and either
  dispatches the synchronous `Promise.all` (suspending) or - when no
  synchronous validators are configured - runs straight through to
  `resolve(undefined)` or `setTimeout`/`storeResetTimeout`.
* `Event.syncComplete` - the continuation after
  `await Promise.all(validatorFunctions...)` resumes (a microtask).
* `Event.fire` - a `setTimeout` timer fires; `asyncValidation` starts
  and synchronously invokes every asynchronous validator, then awaits.
* `Event.asyncComplete` - the continuation after
  `await Promise.all(asyncValidatorFunctions...)` resumes.
* `Event.setValidators` / `Event.setAsyncValidators` - the caller
  mutates the arrays held by the `validators` / `asyncValidators`
  props in place (the props are destructured once; `[...xs]` copies
  the current contents when that line executes).

Modelling notes, each justified by the source:

* The Promise executor receives only `resolve` (line 62).  The
  executor is an `async` function, so an exception inside it rejects
  the executor's own (discarded) promise - the outer promise returned
  by `validate` has no code path that rejects it.  `PromiseState`
  still has a `rejected` constructor so that the absence of rejection
  is a provable statement about the embedding, not something baked
  into the type.
* A JavaScript promise settles at most once; `settle` below encodes
  the first-resolution-wins rule.
* `Promise.all` rejects as soon as any input rejects, otherwise
  resolves with the list of results in input order; `promiseAll`
  encodes this, with `Except.error ()` standing for a thrown
  exception or rejected promise.
* `storeResetTimeout` is React `useState`; following the design the
  code implements we model it as a per-instance mutable cell that is
  written immediately (the stored value is the pair of the timer it
  clears and the run whose promise it resolves to `undefined`).
* A validator is embedded as a pure function of
  (value, allValues, meta); its result `Except.ok none` is a settled
  "no error" (`undefined`), `Except.ok (some e)` a settled error
  message, `Except.error ()` a throw / rejection.
* Only asynchronous-phase validator invocations are logged (in
  `invLog`), because the claims quantify over those; an entry records
  the run, the index of the validator in the copied array, and the
  arguments it was invoked with.
-/

/-- Outcome of calling one validator: `Except.error ()` models the
validator throwing or its returned promise rejecting, `Except.ok r`
a settled result where `r = none` is the "no error" marker
(`undefined`) and `r = some e` an error message. -/
abbrev VRes (ε : Type) := Except Unit (Option ε)

/-- A field validator as in `Field.tsx`: a function of the field value,
the form-values snapshot and the field metadata. -/
abbrev Validator (α ρ μ ε : Type) := α → ρ → μ → VRes ε

/-- Value of the `validators` / `asyncValidators` prop as seen at run
time: either an actual array, or any non-array value (absent,
`undefined`, `null`, an object, ...).  `Field.tsx` guards every use
with `Array.isArray`. -/
inductive PropValue (τ : Type) where
  | arr (xs : τ)
  | nonArray
deriving DecidableEq

/-- Embeds the prop access pattern of lines 67-68 and 87-90 of
`Field.tsx`: `Array.isArray(xs) && xs ? [...xs] : []`.  An array
(truthy, even when empty) is copied; anything else yields the empty
array. -/
def copyIfArray {σ : Type} : PropValue (List σ) → List σ
  | PropValue.arr xs => xs
  | PropValue.nonArray => []

/-- State of the promise returned by one `validate` call.  `rejected`
is expressible (a JavaScript promise can reject in general) but, as
the theorems show, never produced by this executor: `new Promise`
discards the rejection of an `async` executor function. -/
inductive PromiseState (ε : Type) where
  | pending
  | resolved (result : Option (List ε))
  | rejected
deriving DecidableEq

/-- A suspended `await Promise.all(...)` continuation: the run it
belongs to, the copied validator array it is awaiting, and the
arguments captured by the `validate` closure. -/
structure Job (α ρ μ ε : Type) where
  run : Nat
  fns : List (Validator α ρ μ ε)
  value : α
  allValues : ρ
  fieldMeta : μ

/-- A scheduled (not yet fired, not yet cleared) `setTimeout` timer:
its handle, the delay it was scheduled with, and the data the
`asyncValidation` closure captured. -/
structure TimerRec (α ρ μ ε : Type) where
  id : Nat
  delay : Nat
  run : Nat
  fns : List (Validator α ρ μ ε)
  value : α
  allValues : ρ
  fieldMeta : μ

/-- Log entry: asynchronous validator number `idx` of run `run` was
invoked with the recorded arguments. -/
structure InvEntry (α ρ μ : Type) where
  run : Nat
  idx : Nat
  value : α
  allValues : ρ
  fieldMeta : μ
deriving DecidableEq

/-- The mutable state of one mounted `Field` instance together with
the promises handed out to the host, the scheduled timers and the
suspended continuations. -/
structure MState (α ρ μ ε : Type) where
  nextRun : Nat
  nextTimer : Nat
  promises : List (PromiseState ε)
  stored : Option (Nat × Nat)
  syncJobs : List (Job α ρ μ ε)
  armed : List (TimerRec α ρ μ ε)
  asyncJobs : List (Job α ρ μ ε)
  invLog : List (InvEntry α ρ μ)
  curValidators : PropValue (List (Validator α ρ μ ε))
  curAsyncValidators : PropValue (List (Validator α ρ μ ε))

/-- The three extra props accepted by the `Field` component
(lines 9-35 of `Field.tsx`). -/
structure Config (α ρ μ ε : Type) where
  validators : PropValue (List (Validator α ρ μ ε))
  asyncValidators : PropValue (List (Validator α ρ μ ε))
  asyncValidatorsDebounce : Option Nat

/-- Embeds the destructuring default `asyncValidatorsDebounce = 200`
of line 50 of `Field.tsx`. -/
def Config.debounceMs {α ρ μ ε : Type} (c : Config α ρ μ ε) : Nat :=
  c.asyncValidatorsDebounce.getD 200

/-- Scheduler events; see the module comment for how each corresponds
to a synchronous segment of the JavaScript code. -/
inductive Event (α ρ μ ε : Type) where
  | invoke (value : α) (allValues : ρ) (fieldMeta : μ)
  | syncComplete (run : Nat)
  | fire (id : Nat)
  | asyncComplete (run : Nat)
  | setValidators (p : PropValue (List (Validator α ρ μ ε)))
  | setAsyncValidators (p : PropValue (List (Validator α ρ μ ε)))

/-- Resolve the promise of run `r` with `res`, which has an effect
only while that promise is still pending: a JavaScript promise
settles at most once, so a second `resolve` call is a no-op. -/
def settle {ε : Type} : List (PromiseState ε) → Nat → Option (List ε) → List (PromiseState ε)
  | [], _, _ => []
  | p :: ps, 0, res =>
    (match p with
     | PromiseState.pending => PromiseState.resolved res
     | q => q) :: ps
  | p :: ps, r + 1, res => p :: settle ps r res

/-- Embeds `Promise.all` over already-determined outcomes: rejects
(`Except.error`) when any input rejects, otherwise yields all results
in input order. -/
def promiseAll {β : Type} : List (Except Unit β) → Except Unit (List β)
  | [] => Except.ok []
  | x :: xs =>
    match x, promiseAll xs with
    | Except.ok v, Except.ok vs => Except.ok (v :: vs)
    | _, _ => Except.error ()

/-- Embeds `results.filter((v) => v !== undefined)` (lines 78 and 105
of `Field.tsx`).  In JavaScript the surviving elements are the error
messages themselves; in the `Option` embedding dropping the `none`
markers and unwrapping is `filterMap id`. -/
def collectErrors {ε : Type} (results : List (Option ε)) : List ε :=
  results.filterMap id

/-- Embeds lines 63-65 of `Field.tsx`: `if (resetTimeout)
{ resetTimeout(); }`.  The stored callback is `clearTimeoutCallback`
of the run that stored it: it clears that run's timer and resolves
that run's promise to `undefined` (line 111-114).  Clearing a timer
that already fired or was already cleared is a no-op, as is resolving
a promise that already settled. -/
def cancelStored {α ρ μ ε : Type} (s : MState α ρ μ ε) : MState α ρ μ ε :=
  match s.stored with
  | none => s
  | some (tid, rid) =>
    { s with
      armed := s.armed.filter (fun tr => tr.id != tid),
      promises := settle s.promises rid none }

/-- Embeds lines 87-115 of `Field.tsx`, the part of the executor that
runs after the synchronous phase produced no errors (or was skipped):
copy `asyncValidators`; with no asynchronous validators resolve
`undefined` and return; otherwise schedule `asyncValidation` with the
configured debounce and store the cancellation callback.  `r`, `v`,
`av`, `m` are the run and the arguments the executor closed over. -/
def afterSync {α ρ μ ε : Type} (debounceMs : Nat) (s : MState α ρ μ ε)
    (r : Nat) (v : α) (av : ρ) (m : μ) : MState α ρ μ ε :=
  let afns := copyIfArray s.curAsyncValidators
  if afns.length = 0 then
    { s with promises := settle s.promises r none }
  else
    let tid := s.nextTimer
    { s with
      nextTimer := tid + 1,
      armed := s.armed ++
        [{ id := tid, delay := debounceMs, run := r, fns := afns,
           value := v, allValues := av, fieldMeta := m }],
      stored := some (tid, r) }

/-- One scheduler step.  Each case is one synchronous segment of the
JavaScript code between suspension points; see the module comment. -/
def step {α ρ μ ε : Type} (debounceMs : Nat) (s : MState α ρ μ ε) :
    Event α ρ μ ε → MState α ρ μ ε
  | Event.invoke v av m =>
    -- a call of `validate`: a fresh promise is created and the
    -- executor runs synchronously up to its first suspension point
    let r := s.nextRun
    let s1 := cancelStored
      { s with nextRun := r + 1, promises := s.promises ++ [PromiseState.pending] }
    let vfns := copyIfArray s1.curValidators
    if vfns.length > 0 then
      -- line 72: suspend on `await Promise.all(...)`
      { s1 with syncJobs := s1.syncJobs ++
          [{ run := r, fns := vfns, value := v, allValues := av, fieldMeta := m }] }
    else
      afterSync debounceMs s1 r v av m
  | Event.syncComplete r =>
    match s.syncJobs.find? (fun j => j.run == r) with
    | none => s
    | some j =>
      let s1 := { s with syncJobs := s.syncJobs.filter (fun j' => j'.run != r) }
      match promiseAll (j.fns.map (fun f => f j.value j.allValues j.fieldMeta)) with
      | Except.error _ =>
        -- `Promise.all` rejected: the async executor function dies with
        -- it and the outer promise is never settled by this run
        s1
      | Except.ok opts =>
        let errors := collectErrors opts
        if errors.length > 0 then
          { s1 with promises := settle s1.promises r (some errors) }
        else
          afterSync debounceMs s1 r j.value j.allValues j.fieldMeta
  | Event.fire tid =>
    match s.armed.find? (fun tr => tr.id == tid) with
    | none => s
    | some tr =>
      -- `asyncValidation` starts: it synchronously invokes every
      -- asynchronous validator (line 98-101) and suspends on the await
      { s with
        armed := s.armed.filter (fun tr' => tr'.id != tid),
        asyncJobs := s.asyncJobs ++
          [{ run := tr.run, fns := tr.fns, value := tr.value,
             allValues := tr.allValues, fieldMeta := tr.fieldMeta }],
        invLog := s.invLog ++ (List.range tr.fns.length).map
          (fun i => { run := tr.run, idx := i, value := tr.value,
                      allValues := tr.allValues, fieldMeta := tr.fieldMeta }) }
  | Event.asyncComplete r =>
    match s.asyncJobs.find? (fun j => j.run == r) with
    | none => s
    | some j =>
      let s1 := { s with asyncJobs := s.asyncJobs.filter (fun j' => j'.run != r) }
      match promiseAll (j.fns.map (fun f => f j.value j.allValues j.fieldMeta)) with
      | Except.error _ => s1
      | Except.ok opts =>
        let asyncErrors := collectErrors opts
        let res := if asyncErrors.length = 0 then none else some asyncErrors
        { s1 with promises := settle s1.promises r res }
  | Event.setValidators p => { s with curValidators := p }
  | Event.setAsyncValidators p => { s with curAsyncValidators := p }

/-- State of a freshly mounted `Field` instance: no runs, no timers,
nothing stored, the props as configured. -/
def MState.init {α ρ μ ε : Type} (cfg : Config α ρ μ ε) : MState α ρ μ ε :=
  { nextRun := 0, nextTimer := 0, promises := [], stored := none,
    syncJobs := [], armed := [], asyncJobs := [], invLog := [],
    curValidators := cfg.validators, curAsyncValidators := cfg.asyncValidators }

/-- Run a schedule of events from a freshly mounted instance. -/
def runTrace {α ρ μ ε : Type} (cfg : Config α ρ μ ε)
    (es : List (Event α ρ μ ε)) : MState α ρ μ ε :=
  es.foldl (step cfg.debounceMs) (MState.init cfg)

/-- Outcomes of the configured synchronous validators on a given
input, in validator-array order. -/
def syncResults {α ρ μ ε : Type} (cfg : Config α ρ μ ε)
    (v : α) (av : ρ) (m : μ) : List (VRes ε) :=
  (copyIfArray cfg.validators).map (fun f => f v av m)

/-- Outcomes of the configured asynchronous validators on a given
input, in validator-array order. -/
def asyncResults {α ρ μ ε : Type} (cfg : Config α ρ μ ε)
    (v : α) (av : ρ) (m : μ) : List (VRes ε) :=
  (copyIfArray cfg.asyncValidators).map (fun f => f v av m)

/-- Concrete always-passing validator over `Nat` data (all four data
types instantiated with `Nat`), used by concrete scenarios. -/
def vOk : Validator Nat Nat Nat Nat := fun _ _ _ => Except.ok none

/-- Concrete validator that always returns the error message `e`. -/
def vErr (e : Nat) : Validator Nat Nat Nat Nat := fun _ _ _ => Except.ok (some e)

/-- Concrete validator that throws (its result rejects). -/
def vThrow : Validator Nat Nat Nat Nat := fun _ _ _ => Except.error ()

/-- Concrete configuration: one passing synchronous validator, one
failing asynchronous validator, default debounce. -/
def cfgRace : Config Nat Nat Nat Nat :=
  { validators := PropValue.arr [vOk],
    asyncValidators := PropValue.arr [vErr 7],
    asyncValidatorsDebounce := none }

/-- Schedule with two `validate` calls whose synchronous phases
overlap: the second call arrives while the first is suspended on its
synchronous `await`, i.e. before the first run has armed its timer
and stored its cancellation callback. -/
def esRace : List (Event Nat Nat Nat Nat) :=
  [Event.invoke 1 0 0, Event.invoke 2 0 0,
   Event.syncComplete 0, Event.syncComplete 1]

/-- Recognizer for `Event.invoke`. -/
def isInvoke {α ρ μ ε : Type} : Event α ρ μ ε → Bool
  | Event.invoke _ _ _ => true
  | _ => false

/-- Recognizer for the caller-side array-mutation events. -/
def isMutation {α ρ μ ε : Type} : Event α ρ μ ε → Bool
  | Event.setValidators _ => true
  | Event.setAsyncValidators _ => true
  | _ => false

/-- Projection of the state onto everything except the current
contents of the caller's two prop arrays. -/
def MState.core {α ρ μ ε : Type} (s : MState α ρ μ ε) :
    Nat × Nat × List (PromiseState ε) × Option (Nat × Nat) ×
    List (Job α ρ μ ε) × List (TimerRec α ρ μ ε) × List (Job α ρ μ ε) ×
    List (InvEntry α ρ μ) :=
  (s.nextRun, s.nextTimer, s.promises, s.stored, s.syncJobs, s.armed,
   s.asyncJobs, s.invLog)

/-- Run `r` has no live artifacts: no suspended synchronous phase, no
scheduled timer, no in-flight asynchronous phase, and no logged
asynchronous invocation.  Together with `r` being an already-issued
run id this is preserved by every event, so such a run can never
invoke an asynchronous validator later. -/
def NoTrace {α ρ μ ε : Type} (r : Nat) (s : MState α ρ μ ε) : Prop :=
  r < s.nextRun ∧
  (∀ j ∈ s.syncJobs, j.run ≠ r) ∧
  (∀ tr ∈ s.armed, tr.run ≠ r) ∧
  (∀ j ∈ s.asyncJobs, j.run ≠ r) ∧
  (∀ e ∈ s.invLog, e.run ≠ r)

/-- Timer handle `t` has been used up: it is below the allocation
counter and no scheduled timer carries it, so it can never fire. -/
def TimerGone {α ρ μ ε : Type} (t : Nat) (s : MState α ρ μ ε) : Prop :=
  t < s.nextTimer ∧ ∀ tr ∈ s.armed, tr.id ≠ t

/-- Run `r` is pending with nothing that could ever settle it: no
stored cancellation callback refers to it and it has no suspended
phases or timers.  Preserved by every event, hence such a promise is
pending forever. -/
def DeadPending {α ρ μ ε : Type} (r : Nat) (s : MState α ρ μ ε) : Prop :=
  s.promises[r]? = some PromiseState.pending ∧
  (∀ tid, s.stored ≠ some (tid, r)) ∧
  r < s.nextRun ∧
  (∀ j ∈ s.syncJobs, j.run ≠ r) ∧
  (∀ tr ∈ s.armed, tr.run ≠ r) ∧
  (∀ j ∈ s.asyncJobs, j.run ≠ r)

/-- Run `r` owns the validation state: the stored cancellation
callback is its own (it armed the debounce window and no later run
has stored since), its promise is still pending, any scheduled timer
of run `r` is the stored timer `t`, and `r` has no other live
artifacts.  This is the situation in which the next `validate` call
supersedes run `r`. -/
def SoleOwner {α ρ μ ε : Type} (s : MState α ρ μ ε) (t r : Nat) : Prop :=
  s.stored = some (t, r) ∧
  s.promises[r]? = some PromiseState.pending ∧
  r < s.nextRun ∧ t < s.nextTimer ∧
  (∀ tr ∈ s.armed, tr.run = r → tr.id = t) ∧
  (∀ j ∈ s.syncJobs, j.run ≠ r) ∧
  (∀ j ∈ s.asyncJobs, j.run ≠ r) ∧
  (∀ e ∈ s.invLog, e.run ≠ r)

/-- Single-window invariant: every scheduled timer is the one the
stored cancellation callback clears, a suspended synchronous phase
has no scheduled timer alongside it, and at most one synchronous
phase is suspended and at most one timer scheduled. -/
def SInv {α ρ μ ε : Type} (s : MState α ρ μ ε) : Prop :=
  (∀ tr ∈ s.armed, s.stored = some (tr.id, tr.run)) ∧
  (s.syncJobs ≠ [] → s.armed = []) ∧
  s.syncJobs.length ≤ 1 ∧ s.armed.length ≤ 1

/-- A schedule is serial from `s` when every `validate` call in it
arrives only while no earlier call's synchronous phase is still
suspended (the host issues calls one value-change at a time and the
previous synchronous microtask has run). -/
def SerialOK {α ρ μ ε : Type} (d : Nat) : MState α ρ μ ε → List (Event α ρ μ ε) → Prop
  | _, [] => True
  | s, e :: es =>
    (isInvoke e = true → s.syncJobs.length = 0) ∧ SerialOK d (step d s e) es

/-- Concrete configuration with two failing and one passing
synchronous validator and a failing asynchronous validator. -/
def cfgSyncFail : Config Nat Nat Nat Nat :=
  { validators := PropValue.arr [vErr 5, vOk, vErr 6],
    asyncValidators := PropValue.arr [vErr 9],
    asyncValidatorsDebounce := none }

/-- Concrete configuration with a passing synchronous validator, two
asynchronous validators and a custom debounce of 300. -/
def cfgCustom : Config Nat Nat Nat Nat :=
  { validators := PropValue.arr [vOk],
    asyncValidators := PropValue.arr [vErr 7, vOk],
    asyncValidatorsDebounce := some 300 }

/-- Concrete configuration whose asynchronous validators produce a
mix of errors and "no error" markers. -/
def cfgMix : Config Nat Nat Nat Nat :=
  { validators := PropValue.arr [vOk],
    asyncValidators := PropValue.arr [vOk, vErr 5, vOk, vErr 6],
    asyncValidatorsDebounce := none }

/-- Concrete configuration with a throwing synchronous validator. -/
def cfgThrow : Config Nat Nat Nat Nat :=
  { validators := PropValue.arr [vThrow],
    asyncValidators := PropValue.arr [vErr 3],
    asyncValidatorsDebounce := none }

/-- Concrete configuration with no validators at all. -/
def cfgNone : Config Nat Nat Nat Nat :=
  { validators := PropValue.arr [],
    asyncValidators := PropValue.arr [],
    asyncValidatorsDebounce := none }

/-- Concrete configuration with only one asynchronous validator, so a
`validate` call arms its debounce window synchronously. -/
def cfgAsyncOnly : Config Nat Nat Nat Nat :=
  { validators := PropValue.arr [],
    asyncValidators := PropValue.arr [vErr 3],
    asyncValidatorsDebounce := none }

/-- Concrete configuration with a passing synchronous and a passing
asynchronous validator. -/
def cfgMut : Config Nat Nat Nat Nat :=
  { validators := PropValue.arr [vOk],
    asyncValidators := PropValue.arr [vOk],
    asyncValidatorsDebounce := none }

/-- Concrete configuration whose `validators` prop is not an array
and whose `asyncValidators` prop is an empty array. -/
def cfgNonArr : Config Nat Nat Nat Nat :=
  { validators := PropValue.nonArray,
    asyncValidators := PropValue.arr [],
    asyncValidatorsDebounce := some 300 }

/-- Concrete configuration whose two validator props are both
non-array values. -/
def cfgBothNonArr : Config Nat Nat Nat Nat :=
  { validators := PropValue.nonArray,
    asyncValidators := PropValue.nonArray,
    asyncValidatorsDebounce := none }

/-- Two instance states that agree everywhere except possibly in the
raw prop cells, where they agree after the `Array.isArray` guard
(`copyIfArray`).  The orchestrator reads the prop cells only through
that guard, so this relation is a bisimulation. -/
def CurAgree {α ρ μ ε : Type} (s s' : MState α ρ μ ε) : Prop :=
  s.nextRun = s'.nextRun ∧ s.nextTimer = s'.nextTimer ∧
  s.promises = s'.promises ∧ s.stored = s'.stored ∧
  s.syncJobs = s'.syncJobs ∧ s.armed = s'.armed ∧
  s.asyncJobs = s'.asyncJobs ∧ s.invLog = s'.invLog ∧
  copyIfArray s.curValidators = copyIfArray s'.curValidators ∧
  copyIfArray s.curAsyncValidators = copyIfArray s'.curAsyncValidators

/-- Resolution that run 0 of a fresh instance reaches when its
synchronous validators all pass: with no asynchronous validators the
promise resolves to "no error" at once; otherwise it resolves with
the filtered asynchronous results after the timer fires and the
asynchronous phase completes, or stays pending forever when that
phase faults. -/
def finalResolution {α ρ μ ε : Type} (cfg : Config α ρ μ ε)
    (v : α) (av : ρ) (m : μ) : List (PromiseState ε) :=
  if (copyIfArray cfg.asyncValidators).length = 0 then
    [PromiseState.resolved none]
  else
    match promiseAll (asyncResults cfg v av m) with
    | Except.error _ => [PromiseState.pending]
    | Except.ok aopts =>
      [PromiseState.resolved
        (if (collectErrors aopts).length = 0 then none
         else some (collectErrors aopts))]

/-- State of a fresh instance right after the first `validate` call
created its promise, before the executor branches: one pending promise
for run 0. -/
def pending1 {α ρ μ ε : Type} (cfg : Config α ρ μ ε) : MState α ρ μ ε :=
  { nextRun := 1, nextTimer := 0, promises := [PromiseState.pending],
    stored := none, syncJobs := [], armed := [], asyncJobs := [], invLog := [],
    curValidators := cfg.validators, curAsyncValidators := cfg.asyncValidators }

theorem afterSync_syncJobs {α ρ μ ε : Type} (d : Nat) (s : MState α ρ μ ε)
    (r : Nat) (v : α) (av : ρ) (m : μ) :
    (afterSync d s r v av m).syncJobs = s.syncJobs := by
  simp only [afterSync]; split <;> rfl

theorem afterSync_asyncJobs {α ρ μ ε : Type} (d : Nat) (s : MState α ρ μ ε)
    (r : Nat) (v : α) (av : ρ) (m : μ) :
    (afterSync d s r v av m).asyncJobs = s.asyncJobs := by
  simp only [afterSync]; split <;> rfl

theorem afterSync_invLog {α ρ μ ε : Type} (d : Nat) (s : MState α ρ μ ε)
    (r : Nat) (v : α) (av : ρ) (m : μ) :
    (afterSync d s r v av m).invLog = s.invLog := by
  simp only [afterSync]; split <;> rfl

theorem afterSync_nextRun {α ρ μ ε : Type} (d : Nat) (s : MState α ρ μ ε)
    (r : Nat) (v : α) (av : ρ) (m : μ) :
    (afterSync d s r v av m).nextRun = s.nextRun := by
  simp only [afterSync]; split <;> rfl

theorem settle_length {ε : Type} (ps : List (PromiseState ε)) (r : Nat)
    (x : Option (List ε)) : (settle ps r x).length = ps.length := by
  induction ps generalizing r with
  | nil => rfl
  | cons p ps ih =>
    cases r with
    | zero => rfl
    | succ r => simp [settle, ih]

theorem settle_getElem?_of_ne {ε : Type} (ps : List (PromiseState ε)) (r q : Nat)
    (x : Option (List ε)) (h : q ≠ r) : (settle ps r x)[q]? = ps[q]? := by
  induction ps generalizing r q with
  | nil => rfl
  | cons p ps ih =>
    cases r with
    | zero =>
      cases q with
      | zero => exact absurd rfl h
      | succ q => simp [settle]
    | succ r =>
      cases q with
      | zero => simp [settle]
      | succ q =>
        simp only [settle, List.getElem?_cons_succ]
        exact ih r q (fun hh => h (by omega))

theorem settle_getElem?_self {ε : Type} (ps : List (PromiseState ε)) (r : Nat)
    (x : Option (List ε)) (h : ps[r]? = some PromiseState.pending) :
    (settle ps r x)[r]? = some (PromiseState.resolved x) := by
  induction ps generalizing r with
  | nil => simp at h
  | cons p ps ih =>
    cases r with
    | zero =>
      simp only [List.getElem?_cons_zero, Option.some_inj] at h
      subst h; simp [settle]
    | succ r =>
      simp only [List.getElem?_cons_succ] at h
      simp only [settle, List.getElem?_cons_succ]
      exact ih r h

theorem settle_getElem?_resolved {ε : Type} (ps : List (PromiseState ε)) (r q : Nat)
    (x y : Option (List ε)) (h : ps[q]? = some (PromiseState.resolved y)) :
    (settle ps r x)[q]? = some (PromiseState.resolved y) := by
  rcases eq_or_ne q r with rfl | hne
  · induction ps generalizing q with
    | nil => simp at h
    | cons p ps ih =>
      cases q with
      | zero =>
        simp only [List.getElem?_cons_zero, Option.some_inj] at h
        subst h; simp [settle]
      | succ q =>
        simp only [List.getElem?_cons_succ] at h
        simp only [settle, List.getElem?_cons_succ]
        exact ih q h
  · rw [settle_getElem?_of_ne _ _ _ _ hne]; exact h

theorem getElem?_append_resolved {ε : Type} (ps qs : List (PromiseState ε)) (q : Nat)
    (v : PromiseState ε) (h : ps[q]? = some v) : (ps ++ qs)[q]? = some v := by
  rw [List.getElem?_append_left (List.getElem?_eq_some.mp h).1]; exact h

theorem cancelStored_resolved {α ρ μ ε : Type} (s : MState α ρ μ ε) (q : Nat)
    (y : Option (List ε)) (h : s.promises[q]? = some (PromiseState.resolved y)) :
    (cancelStored s).promises[q]? = some (PromiseState.resolved y) := by
  simp only [cancelStored]
  split
  · exact h
  · exact settle_getElem?_resolved _ _ _ _ _ h

theorem afterSync_resolved {α ρ μ ε : Type} (d : Nat) (s : MState α ρ μ ε)
    (r : Nat) (v : α) (av : ρ) (m : μ) (q : Nat) (y : Option (List ε))
    (h : s.promises[q]? = some (PromiseState.resolved y)) :
    (afterSync d s r v av m).promises[q]? = some (PromiseState.resolved y) := by
  simp only [afterSync]
  split
  · exact settle_getElem?_resolved _ _ _ _ _ h
  · exact h

theorem step_resolved {α ρ μ ε : Type} (d : Nat) (s : MState α ρ μ ε)
    (e : Event α ρ μ ε) (q : Nat) (y : Option (List ε))
    (h : s.promises[q]? = some (PromiseState.resolved y)) :
    (step d s e).promises[q]? = some (PromiseState.resolved y) := by
  cases e with
  | invoke v av m =>
    simp only [step]
    split
    · exact cancelStored_resolved _ _ _ (getElem?_append_resolved _ _ _ _ h)
    · exact afterSync_resolved _ _ _ _ _ _ _ _
        (cancelStored_resolved _ _ _ (getElem?_append_resolved _ _ _ _ h))
  | syncComplete r =>
    simp only [step]
    split
    · exact h
    · split
      · exact h
      · split
        · exact settle_getElem?_resolved _ _ _ _ _ h
        · exact afterSync_resolved _ _ _ _ _ _ _ _ h
  | fire tid =>
    simp only [step]
    split
    · exact h
    · exact h
  | asyncComplete r =>
    simp only [step]
    split
    · exact h
    · split
      · exact h
      · exact settle_getElem?_resolved _ _ _ _ _ h
  | setValidators p => exact h
  | setAsyncValidators p => exact h

theorem foldl_resolved {α ρ μ ε : Type} (d : Nat) (es : List (Event α ρ μ ε))
    (s : MState α ρ μ ε) (q : Nat) (y : Option (List ε))
    (h : s.promises[q]? = some (PromiseState.resolved y)) :
    (es.foldl (step d) s).promises[q]? = some (PromiseState.resolved y) := by
  induction es generalizing s with
  | nil => exact h
  | cons e es ih => exact ih _ (step_resolved d s e q y h)

theorem settle_mem {ε : Type} (ps : List (PromiseState ε)) (r : Nat)
    (x : Option (List ε)) (q : PromiseState ε) (h : q ∈ settle ps r x) :
    q ∈ ps ∨ ∃ y, q = PromiseState.resolved y := by
  induction ps generalizing r with
  | nil => simp [settle] at h
  | cons p ps ih =>
    cases r with
    | zero =>
      simp only [settle] at h
      rcases List.mem_cons.mp h with h | h
      · cases p with
        | pending => exact Or.inr ⟨x, h⟩
        | resolved y => exact Or.inl (by simp [h])
        | rejected => exact Or.inl (by simp [h])
      · exact Or.inl (List.mem_cons_of_mem _ h)
    | succ r =>
      simp only [settle] at h
      rcases List.mem_cons.mp h with h | h
      · exact Or.inl (by simp [h])
      · rcases ih r h with h | h
        · exact Or.inl (List.mem_cons_of_mem _ h)
        · exact Or.inr h

theorem rejected_not_mem_settle {ε : Type} (ps : List (PromiseState ε)) (r : Nat)
    (x : Option (List ε)) (h : PromiseState.rejected ∉ ps) :
    PromiseState.rejected ∉ settle ps r x := by
  intro hmem
  rcases settle_mem ps r x _ hmem with hm | ⟨y, hy⟩
  · exact h hm
  · exact PromiseState.noConfusion hy

theorem rejected_not_mem_cancelStored {α ρ μ ε : Type} (s : MState α ρ μ ε)
    (h : PromiseState.rejected ∉ s.promises) :
    PromiseState.rejected ∉ (cancelStored s).promises := by
  simp only [cancelStored]
  split
  · exact h
  · exact rejected_not_mem_settle _ _ _ h

theorem rejected_not_mem_afterSync {α ρ μ ε : Type} (d : Nat) (s : MState α ρ μ ε)
    (r : Nat) (v : α) (av : ρ) (m : μ)
    (h : PromiseState.rejected ∉ s.promises) :
    PromiseState.rejected ∉ (afterSync d s r v av m).promises := by
  simp only [afterSync]
  split
  · exact rejected_not_mem_settle _ _ _ h
  · exact h

theorem rejected_not_mem_step {α ρ μ ε : Type} (d : Nat) (s : MState α ρ μ ε)
    (e : Event α ρ μ ε) (h : PromiseState.rejected ∉ s.promises) :
    PromiseState.rejected ∉ (step d s e).promises := by
  have happ : PromiseState.rejected ∉ s.promises ++ [PromiseState.pending] := by
    intro hmem
    rcases List.mem_append.mp hmem with hm | hm
    · exact h hm
    · simp at hm
  cases e with
  | invoke v av m =>
    simp only [step]
    split
    · exact rejected_not_mem_cancelStored _ happ
    · exact rejected_not_mem_afterSync _ _ _ _ _ _
        (rejected_not_mem_cancelStored _ happ)
  | syncComplete r =>
    simp only [step]
    split
    · exact h
    · split
      · exact h
      · split
        · exact rejected_not_mem_settle _ _ _ h
        · exact rejected_not_mem_afterSync _ _ _ _ _ _ h
  | fire tid =>
    simp only [step]
    split
    · exact h
    · exact h
  | asyncComplete r =>
    simp only [step]
    split
    · exact h
    · split
      · exact h
      · exact rejected_not_mem_settle _ _ _ h
  | setValidators p => exact h
  | setAsyncValidators p => exact h

theorem rejected_not_mem_foldl {α ρ μ ε : Type} (d : Nat)
    (es : List (Event α ρ μ ε)) (s : MState α ρ μ ε)
    (h : PromiseState.rejected ∉ s.promises) :
    PromiseState.rejected ∉ (es.foldl (step d) s).promises := by
  induction es generalizing s with
  | nil => exact h
  | cons e es ih => exact ih _ (rejected_not_mem_step d s e h)

theorem noTrace_cancelStored {α ρ μ ε : Type} (s : MState α ρ μ ε) (r : Nat)
    (h : NoTrace r s) : NoTrace r (cancelStored s) := by
  obtain ⟨h1, h2, h3, h4, h5⟩ := h
  simp only [cancelStored]
  split
  · exact ⟨h1, h2, h3, h4, h5⟩
  · exact ⟨h1, h2, fun tr htr => h3 tr (List.mem_of_mem_filter htr), h4, h5⟩

theorem noTrace_afterSync {α ρ μ ε : Type} (d : Nat) (s : MState α ρ μ ε)
    (q : Nat) (v : α) (av : ρ) (m : μ) (r : Nat)
    (h : NoTrace r s) (hq : q ≠ r) : NoTrace r (afterSync d s q v av m) := by
  obtain ⟨h1, h2, h3, h4, h5⟩ := h
  simp only [afterSync]
  split
  · exact ⟨h1, h2, h3, h4, h5⟩
  · refine ⟨h1, h2, ?_, h4, h5⟩
    intro tr htr
    rcases List.mem_append.mp htr with hm | hm
    · exact h3 tr hm
    · simp only [List.mem_singleton] at hm
      subst hm
      exact hq

theorem noTrace_step {α ρ μ ε : Type} (d : Nat) (s : MState α ρ μ ε)
    (e : Event α ρ μ ε) (r : Nat) (h : NoTrace r s) :
    NoTrace r (step d s e) := by
  obtain ⟨h1, h2, h3, h4, h5⟩ := h
  cases e with
  | invoke v av m =>
    have hbase : NoTrace r (cancelStored
        { s with nextRun := s.nextRun + 1,
                 promises := s.promises ++ [PromiseState.pending] }) :=
      noTrace_cancelStored _ r ⟨Nat.lt_succ_of_lt h1, h2, h3, h4, h5⟩
    simp only [step]
    split
    · obtain ⟨g1, g2, g3, g4, g5⟩ := hbase
      refine ⟨g1, ?_, g3, g4, g5⟩
      intro j hj
      rcases List.mem_append.mp hj with hm | hm
      · exact g2 j hm
      · simp only [List.mem_singleton] at hm
        subst hm
        exact Nat.ne_of_gt h1
    · exact noTrace_afterSync _ _ _ _ _ _ _ hbase (Nat.ne_of_gt h1)
  | syncComplete q =>
    simp only [step]
    split
    · exact ⟨h1, h2, h3, h4, h5⟩
    · rename_i j hfind
      have hjmem : j ∈ s.syncJobs := List.mem_of_find?_eq_some hfind
      have hjrun : j.run = q := by
        have := List.find?_some hfind
        simpa using this
      have hqr : q ≠ r := hjrun ▸ h2 j hjmem
      have hs1 : NoTrace r
          { s with syncJobs := s.syncJobs.filter (fun j' => j'.run != q) } :=
        ⟨h1, fun j' hj' => h2 j' (List.mem_of_mem_filter hj'), h3, h4, h5⟩
      obtain ⟨g1, g2, g3, g4, g5⟩ := hs1
      split
      · exact ⟨g1, g2, g3, g4, g5⟩
      · split
        · exact ⟨g1, g2, g3, g4, g5⟩
        · exact noTrace_afterSync _ _ _ _ _ _ _ ⟨g1, g2, g3, g4, g5⟩ hqr
  | fire tid =>
    simp only [step]
    split
    · exact ⟨h1, h2, h3, h4, h5⟩
    · rename_i tr hfind
      have htrmem : tr ∈ s.armed := List.mem_of_find?_eq_some hfind
      have htr : tr.run ≠ r := h3 tr htrmem
      refine ⟨h1, h2, ?_, ?_, ?_⟩
      · intro tr' htr'
        exact h3 tr' (List.mem_of_mem_filter htr')
      · intro j hj
        rcases List.mem_append.mp hj with hm | hm
        · exact h4 j hm
        · simp only [List.mem_singleton] at hm
          subst hm
          exact htr
      · intro en hen
        rcases List.mem_append.mp hen with hm | hm
        · exact h5 en hm
        · rcases List.mem_map.mp hm with ⟨i, _, hi⟩
          subst hi
          exact htr
  | asyncComplete q =>
    simp only [step]
    split
    · exact ⟨h1, h2, h3, h4, h5⟩
    · have hs1 : NoTrace r
          { s with asyncJobs := s.asyncJobs.filter (fun j' => j'.run != q) } :=
        ⟨h1, h2, h3, fun j' hj' => h4 j' (List.mem_of_mem_filter hj'), h5⟩
      obtain ⟨g1, g2, g3, g4, g5⟩ := hs1
      split
      · exact ⟨g1, g2, g3, g4, g5⟩
      · exact ⟨g1, g2, g3, g4, g5⟩
  | setValidators p => exact ⟨h1, h2, h3, h4, h5⟩
  | setAsyncValidators p => exact ⟨h1, h2, h3, h4, h5⟩

theorem noTrace_foldl {α ρ μ ε : Type} (d : Nat) (es : List (Event α ρ μ ε))
    (s : MState α ρ μ ε) (r : Nat) (h : NoTrace r s) :
    NoTrace r (es.foldl (step d) s) := by
  induction es generalizing s with
  | nil => exact h
  | cons e es ih => exact ih _ (noTrace_step d s e r h)

theorem timerGone_cancelStored {α ρ μ ε : Type} (s : MState α ρ μ ε) (t : Nat)
    (h : TimerGone t s) : TimerGone t (cancelStored s) := by
  obtain ⟨h1, h2⟩ := h
  simp only [cancelStored]
  split
  · exact ⟨h1, h2⟩
  · exact ⟨h1, fun tr htr => h2 tr (List.mem_of_mem_filter htr)⟩

theorem timerGone_afterSync {α ρ μ ε : Type} (d : Nat) (s : MState α ρ μ ε)
    (q : Nat) (v : α) (av : ρ) (m : μ) (t : Nat)
    (h : TimerGone t s) : TimerGone t (afterSync d s q v av m) := by
  obtain ⟨h1, h2⟩ := h
  simp only [afterSync]
  split
  · exact ⟨h1, h2⟩
  · refine ⟨Nat.lt_succ_of_lt h1, ?_⟩
    intro tr htr
    rcases List.mem_append.mp htr with hm | hm
    · exact h2 tr hm
    · simp only [List.mem_singleton] at hm
      subst hm
      exact Nat.ne_of_gt h1
theorem timerGone_step {α ρ μ ε : Type} (d : Nat) (s : MState α ρ μ ε)
    (e : Event α ρ μ ε) (t : Nat) (h : TimerGone t s) :
    TimerGone t (step d s e) := by
  obtain ⟨h1, h2⟩ := h
  cases e with
  | invoke v av m =>
    have hbase : TimerGone t (cancelStored
        { s with nextRun := s.nextRun + 1,
                 promises := s.promises ++ [PromiseState.pending] }) :=
      timerGone_cancelStored _ t ⟨h1, h2⟩
    simp only [step]
    split
    · exact hbase
    · exact timerGone_afterSync _ _ _ _ _ _ _ hbase
  | syncComplete q =>
    simp only [step]
    split
    · exact ⟨h1, h2⟩
    · split
      · exact ⟨h1, h2⟩
      · split
        · exact ⟨h1, h2⟩
        · exact timerGone_afterSync _ _ _ _ _ _ _ ⟨h1, h2⟩
  | fire tid =>
    simp only [step]
    split
    · exact ⟨h1, h2⟩
    · exact ⟨h1, fun tr htr => h2 tr (List.mem_of_mem_filter htr)⟩
  | asyncComplete q =>
    simp only [step]
    split
    · exact ⟨h1, h2⟩
    · split
      · exact ⟨h1, h2⟩
      · exact ⟨h1, h2⟩
  | setValidators p => exact ⟨h1, h2⟩
  | setAsyncValidators p => exact ⟨h1, h2⟩

theorem timerGone_foldl {α ρ μ ε : Type} (d : Nat) (es : List (Event α ρ μ ε))
    (s : MState α ρ μ ε) (t : Nat) (h : TimerGone t s) :
    TimerGone t (es.foldl (step d) s) := by
  induction es generalizing s with
  | nil => exact h
  | cons e es ih => exact ih _ (timerGone_step d s e t h)

theorem deadPending_afterSync {α ρ μ ε : Type} (d : Nat) (s : MState α ρ μ ε)
    (q : Nat) (v : α) (av : ρ) (m : μ) (r : Nat)
    (h : DeadPending r s) (hq : q ≠ r) : DeadPending r (afterSync d s q v av m) := by
  obtain ⟨h1, h2, h3, h4, h5, h6⟩ := h
  simp only [afterSync]
  split
  · exact ⟨by rw [settle_getElem?_of_ne _ _ _ _ (Ne.symm hq)]; exact h1,
      h2, h3, h4, h5, h6⟩
  · refine ⟨h1, ?_, h3, h4, ?_, h6⟩
    · intro tid heq
      simp only [Option.some_inj, Prod.mk.injEq] at heq
      exact hq heq.2
    · intro tr htr
      rcases List.mem_append.mp htr with hm | hm
      · exact h5 tr hm
      · simp only [List.mem_singleton] at hm
        subst hm
        exact hq

theorem deadPending_step {α ρ μ ε : Type} (d : Nat) (s : MState α ρ μ ε)
    (e : Event α ρ μ ε) (r : Nat) (h : DeadPending r s) :
    DeadPending r (step d s e) := by
  obtain ⟨h1, h2, h3, h4, h5, h6⟩ := h
  cases e with
  | invoke v av m =>
    have hpend : (s.promises ++ [PromiseState.pending])[r]? = some PromiseState.pending :=
      getElem?_append_resolved _ _ _ _ h1
    have hbase : DeadPending r (cancelStored
        { s with nextRun := s.nextRun + 1,
                 promises := s.promises ++ [PromiseState.pending] }) := by
      simp only [cancelStored]
      split
      · exact ⟨hpend, h2, Nat.lt_succ_of_lt h3, h4, h5, h6⟩
      · rename_i tid rid heq
        have hrid : rid ≠ r := by
          intro hr
          exact h2 tid (by rw [heq, hr])
        exact ⟨by rw [settle_getElem?_of_ne _ _ _ _ (Ne.symm hrid)]; exact hpend,
          h2, Nat.lt_succ_of_lt h3,
          h4, fun tr htr => h5 tr (List.mem_of_mem_filter htr), h6⟩
    simp only [step]
    split
    · obtain ⟨g1, g2, g3, g4, g5, g6⟩ := hbase
      refine ⟨g1, g2, g3, ?_, g5, g6⟩
      intro j hj
      rcases List.mem_append.mp hj with hm | hm
      · exact g4 j hm
      · simp only [List.mem_singleton] at hm
        subst hm
        exact Nat.ne_of_gt h3
    · exact deadPending_afterSync _ _ _ _ _ _ _ hbase (Nat.ne_of_gt h3)
  | syncComplete q =>
    simp only [step]
    split
    · exact ⟨h1, h2, h3, h4, h5, h6⟩
    · rename_i j hfind
      have hjmem : j ∈ s.syncJobs := List.mem_of_find?_eq_some hfind
      have hjrun : j.run = q := by
        have := List.find?_some hfind
        simpa using this
      have hqr : q ≠ r := hjrun ▸ h4 j hjmem
      have hs1 : DeadPending r
          { s with syncJobs := s.syncJobs.filter (fun j' => j'.run != q) } :=
        ⟨h1, h2, h3, fun j' hj' => h4 j' (List.mem_of_mem_filter hj'), h5, h6⟩
      obtain ⟨g1, g2, g3, g4, g5, g6⟩ := hs1
      split
      · exact ⟨g1, g2, g3, g4, g5, g6⟩
      · split
        · exact ⟨by rw [settle_getElem?_of_ne _ _ _ _ (Ne.symm hqr)]; exact g1,
            g2, g3, g4, g5, g6⟩
        · exact deadPending_afterSync _ _ _ _ _ _ _ ⟨g1, g2, g3, g4, g5, g6⟩ hqr
  | fire tid =>
    simp only [step]
    split
    · exact ⟨h1, h2, h3, h4, h5, h6⟩
    · rename_i tr hfind
      have htr : tr.run ≠ r := h5 tr (List.mem_of_find?_eq_some hfind)
      refine ⟨h1, h2, h3, h4, ?_, ?_⟩
      · intro tr' htr'
        exact h5 tr' (List.mem_of_mem_filter htr')
      · intro j hj
        rcases List.mem_append.mp hj with hm | hm
        · exact h6 j hm
        · simp only [List.mem_singleton] at hm
          subst hm
          exact htr
  | asyncComplete q =>
    simp only [step]
    split
    · exact ⟨h1, h2, h3, h4, h5, h6⟩
    · rename_i j hfind
      have hjrun : j.run = q := by
        have := List.find?_some hfind
        simpa using this
      have hqr : q ≠ r := hjrun ▸ h6 j (List.mem_of_find?_eq_some hfind)
      have hs1 : DeadPending r
          { s with asyncJobs := s.asyncJobs.filter (fun j' => j'.run != q) } :=
        ⟨h1, h2, h3, h4, h5, fun j' hj' => h6 j' (List.mem_of_mem_filter hj')⟩
      obtain ⟨g1, g2, g3, g4, g5, g6⟩ := hs1
      split
      · exact ⟨g1, g2, g3, g4, g5, g6⟩
      · exact ⟨by rw [settle_getElem?_of_ne _ _ _ _ (Ne.symm hqr)]; exact g1,
          g2, g3, g4, g5, g6⟩
  | setValidators p => exact ⟨h1, h2, h3, h4, h5, h6⟩
  | setAsyncValidators p => exact ⟨h1, h2, h3, h4, h5, h6⟩

theorem deadPending_foldl {α ρ μ ε : Type} (d : Nat) (es : List (Event α ρ μ ε))
    (s : MState α ρ μ ε) (r : Nat) (h : DeadPending r s) :
    DeadPending r (es.foldl (step d) s) := by
  induction es generalizing s with
  | nil => exact h
  | cons e es ih => exact ih _ (deadPending_step d s e r h)

theorem eq_singleton_of_length_le_one {σ : Type} (l : List σ) (a : σ)
    (h : l.length ≤ 1) (ha : a ∈ l) : l = [a] := by
  cases l with
  | nil => simp at ha
  | cons x xs =>
    cases xs with
    | nil =>
      simp only [List.mem_singleton] at ha
      rw [ha]
    | cons y ys => simp at h

theorem cancelStored_armed_nil {α ρ μ ε : Type} (s : MState α ρ μ ε)
    (hA : ∀ tr ∈ s.armed, s.stored = some (tr.id, tr.run)) :
    (cancelStored s).armed = [] := by
  simp only [cancelStored]
  split
  · rename_i hnone
    apply List.eq_nil_iff_forall_not_mem.mpr
    intro tr htr
    rw [hnone] at hA
    exact Option.noConfusion (hA tr htr)
  · rename_i tid rid heq
    apply List.eq_nil_iff_forall_not_mem.mpr
    intro tr htr
    obtain ⟨hmem, hpred⟩ := List.mem_filter.mp htr
    have hst := hA tr hmem
    rw [heq, Option.some_inj, Prod.mk.injEq] at hst
    simp only [bne_iff_ne, ne_eq] at hpred
    exact hpred hst.1.symm

theorem sInv_afterSync_of_armed_nil {α ρ μ ε : Type} (d : Nat) (s : MState α ρ μ ε)
    (q : Nat) (v : α) (av : ρ) (m : μ)
    (harmed : s.armed = []) (hsync : s.syncJobs = []) :
    SInv (afterSync d s q v av m) := by
  simp only [afterSync]
  split
  · exact ⟨by rw [harmed]; intro tr htr; simp at htr,
      fun _ => harmed, by rw [hsync]; exact Nat.zero_le 1, by rw [harmed]; exact Nat.zero_le 1⟩
  · refine ⟨?_, fun _ => absurd hsync (by simp_all), ?_, ?_⟩
    · intro tr htr
      rw [harmed] at htr
      simp only [List.nil_append, List.mem_singleton] at htr
      subst htr
      rfl
    · rw [hsync]; exact Nat.zero_le 1
    · rw [harmed]; simp

theorem sInv_step {α ρ μ ε : Type} (d : Nat) (s : MState α ρ μ ε)
    (e : Event α ρ μ ε) (h : SInv s)
    (hser : isInvoke e = true → s.syncJobs.length = 0) :
    SInv (step d s e) := by
  obtain ⟨hA, hB, hC, hD⟩ := h
  cases e with
  | invoke v av m =>
    have hsync : s.syncJobs = [] :=
      List.length_eq_zero.mp (hser rfl)
    have hcancel : (cancelStored
        { s with nextRun := s.nextRun + 1,
                 promises := s.promises ++ [PromiseState.pending] }).armed = [] :=
      cancelStored_armed_nil _ hA
    have hcsync : (cancelStored
        { s with nextRun := s.nextRun + 1,
                 promises := s.promises ++ [PromiseState.pending] }).syncJobs = [] := by
      simp only [cancelStored]
      split <;> exact hsync
    simp only [step]
    split
    · refine ⟨?_, ?_, ?_, ?_⟩
      · intro tr htr
        rw [hcancel] at htr
        simp at htr
      · intro _
        exact hcancel
      · rw [hcsync]
        simp
      · rw [hcancel]
        exact Nat.zero_le 1
    · exact sInv_afterSync_of_armed_nil _ _ _ _ _ _ hcancel hcsync
  | syncComplete q =>
    simp only [step]
    split
    · exact ⟨hA, hB, hC, hD⟩
    · rename_i j hfind
      have hjmem : j ∈ s.syncJobs := List.mem_of_find?_eq_some hfind
      have hjrun : j.run = q := by
        have := List.find?_some hfind
        simpa using this
      have harmed : s.armed = [] :=
        hB (by intro hnil; rw [hnil] at hjmem; simp at hjmem)
      have hjobs : s.syncJobs = [j] := eq_singleton_of_length_le_one _ _ hC hjmem
      have hfilter : s.syncJobs.filter (fun j' => j'.run != q) = [] := by
        rw [hjobs]
        simp [List.filter, hjrun]
      split
      · exact ⟨by rw [harmed]; intro tr htr; simp at htr,
          fun _ => harmed, by rw [hfilter]; exact Nat.zero_le 1,
          by rw [harmed]; exact Nat.zero_le 1⟩
      · split
        · exact ⟨by rw [harmed]; intro tr htr; simp at htr,
            fun _ => harmed, by rw [hfilter]; exact Nat.zero_le 1,
            by rw [harmed]; exact Nat.zero_le 1⟩
        · exact sInv_afterSync_of_armed_nil _ _ _ _ _ _ harmed hfilter
  | fire tid =>
    simp only [step]
    split
    · exact ⟨hA, hB, hC, hD⟩
    · refine ⟨?_, ?_, hC, ?_⟩
      · intro tr htr
        exact hA tr (List.mem_of_mem_filter htr)
      · intro hne
        rw [hB hne]
        simp
      · exact le_trans (List.length_filter_le _ _) hD
  | asyncComplete q =>
    simp only [step]
    split
    · exact ⟨hA, hB, hC, hD⟩
    · split
      · exact ⟨hA, hB, hC, hD⟩
      · exact ⟨hA, hB, hC, hD⟩
  | setValidators p => exact ⟨hA, hB, hC, hD⟩
  | setAsyncValidators p => exact ⟨hA, hB, hC, hD⟩

theorem sInv_serial_foldl {α ρ μ ε : Type} (d : Nat) (es : List (Event α ρ μ ε))
    (s : MState α ρ μ ε) (h : SInv s) (hser : SerialOK d s es) :
    SInv (es.foldl (step d) s) := by
  induction es generalizing s with
  | nil => exact h
  | cons e es ih =>
    obtain ⟨h1, h2⟩ := hser
    exact ih _ (sInv_step d s e h h1) h2

theorem serialOK_append_left {α ρ μ ε : Type} (d : Nat)
    (es es' : List (Event α ρ μ ε)) (s : MState α ρ μ ε)
    (h : SerialOK d s (es ++ es')) : SerialOK d s es := by
  induction es generalizing s with
  | nil => trivial
  | cons e es ih =>
    obtain ⟨h1, h2⟩ := h
    exact ⟨h1, ih _ h2⟩

theorem cancelStored_none {α ρ μ ε : Type} (s : MState α ρ μ ε)
    (h : s.stored = none) : cancelStored s = s := by
  simp only [cancelStored, h]

theorem cancelStored_some {α ρ μ ε : Type} (s : MState α ρ μ ε) (tid rid : Nat)
    (h : s.stored = some (tid, rid)) :
    cancelStored s =
      { s with armed := s.armed.filter (fun tr => tr.id != tid),
               promises := settle s.promises rid none } := by
  simp only [cancelStored, h]

theorem afterSync_noasync {α ρ μ ε : Type} (d : Nat) (s : MState α ρ μ ε)
    (r : Nat) (v : α) (av : ρ) (m : μ)
    (h : copyIfArray s.curAsyncValidators = []) :
    afterSync d s r v av m = { s with promises := settle s.promises r none } := by
  simp only [afterSync, h]
  rfl

theorem afterSync_arm {α ρ μ ε : Type} (d : Nat) (s : MState α ρ μ ε)
    (r : Nat) (v : α) (av : ρ) (m : μ)
    (h : copyIfArray s.curAsyncValidators ≠ []) :
    afterSync d s r v av m =
      { s with nextTimer := s.nextTimer + 1,
               armed := s.armed ++
                 [{ id := s.nextTimer, delay := d, run := r,
                    fns := copyIfArray s.curAsyncValidators,
                    value := v, allValues := av, fieldMeta := m }],
               stored := some (s.nextTimer, r) } := by
  simp only [afterSync]
  rw [if_neg]
  simpa using h

theorem invoke_init_nosync {α ρ μ ε : Type} (cfg : Config α ρ μ ε)
    (v : α) (av : ρ) (m : μ) (h : copyIfArray cfg.validators = []) :
    step cfg.debounceMs (MState.init cfg) (Event.invoke v av m)
      = afterSync cfg.debounceMs (pending1 cfg) 0 v av m := by
  simp [step, MState.init, cancelStored, pending1, h]

theorem invoke_init_sync {α ρ μ ε : Type} (cfg : Config α ρ μ ε)
    (v : α) (av : ρ) (m : μ) (h : copyIfArray cfg.validators ≠ []) :
    step cfg.debounceMs (MState.init cfg) (Event.invoke v av m)
      = { pending1 cfg with
          syncJobs := [{ run := 0, fns := copyIfArray cfg.validators,
                         value := v, allValues := av, fieldMeta := m }] } := by
  simp only [step, MState.init, cancelStored, pending1]
  rw [if_pos]
  · rfl
  · exact List.length_pos.mpr h

theorem syncComplete_noop {α ρ μ ε : Type} (d : Nat) (s : MState α ρ μ ε)
    (r : Nat) (h : s.syncJobs = []) : step d s (Event.syncComplete r) = s := by
  simp only [step, h, List.find?_nil]

theorem syncComplete_single {α ρ μ ε : Type} (d : Nat) (s : MState α ρ μ ε)
    (j : Job α ρ μ ε) (r : Nat) (hj : s.syncJobs = [j]) (hr : j.run = r) :
    step d s (Event.syncComplete r) =
      match promiseAll (j.fns.map (fun f => f j.value j.allValues j.fieldMeta)) with
      | Except.error _ => { s with syncJobs := [] }
      | Except.ok opts =>
        if (collectErrors opts).length > 0 then
          { s with syncJobs := [],
                   promises := settle s.promises r (some (collectErrors opts)) }
        else
          afterSync d { s with syncJobs := [] } r j.value j.allValues j.fieldMeta := by
  have hfind : s.syncJobs.find? (fun j' => j'.run == r) = some j := by
    rw [hj]
    simp [List.find?, hr]
  have hfilter : s.syncJobs.filter (fun j' => j'.run != r) = [] := by
    rw [hj]
    simp [List.filter, hr]
  simp only [step, hfind, hfilter]

theorem fire_noop {α ρ μ ε : Type} (d : Nat) (s : MState α ρ μ ε)
    (tid : Nat) (h : s.armed.find? (fun tr => tr.id == tid) = none) :
    step d s (Event.fire tid) = s := by
  simp only [step, h]

theorem fire_single {α ρ μ ε : Type} (d : Nat) (s : MState α ρ μ ε)
    (tr : TimerRec α ρ μ ε) (h : s.armed = [tr]) :
    step d s (Event.fire tr.id) =
      { s with armed := [],
               asyncJobs := s.asyncJobs ++
                 [{ run := tr.run, fns := tr.fns, value := tr.value,
                    allValues := tr.allValues, fieldMeta := tr.fieldMeta }],
               invLog := s.invLog ++ (List.range tr.fns.length).map
                 (fun i => { run := tr.run, idx := i, value := tr.value,
                             allValues := tr.allValues, fieldMeta := tr.fieldMeta }) } := by
  have hfind : s.armed.find? (fun tr' => tr'.id == tr.id) = some tr := by
    rw [h]
    simp [List.find?]
  have hfilter : s.armed.filter (fun tr' => tr'.id != tr.id) = [] := by
    rw [h]
    simp [List.filter]
  simp only [step, hfind, hfilter]

theorem asyncComplete_single {α ρ μ ε : Type} (d : Nat) (s : MState α ρ μ ε)
    (j : Job α ρ μ ε) (r : Nat) (hj : s.asyncJobs = [j]) (hr : j.run = r) :
    step d s (Event.asyncComplete r) =
      match promiseAll (j.fns.map (fun f => f j.value j.allValues j.fieldMeta)) with
      | Except.error _ => { s with asyncJobs := [] }
      | Except.ok opts =>
        { s with asyncJobs := [],
                 promises := settle s.promises r
                   (if (collectErrors opts).length = 0 then none
                    else some (collectErrors opts)) } := by
  have hfind : s.asyncJobs.find? (fun j' => j'.run == r) = some j := by
    rw [hj]
    simp [List.find?, hr]
  have hfilter : s.asyncJobs.filter (fun j' => j'.run != r) = [] := by
    rw [hj]
    simp [List.filter, hr]
  simp only [step, hfind, hfilter]

theorem step_invoke_cancels {α ρ μ ε : Type} (d : Nat) (s : MState α ρ μ ε)
    (t r : Nat) (v : α) (av : ρ) (m : μ)
    (hst : s.stored = some (t, r))
    (hp : s.promises[r]? = some PromiseState.pending) :
    (step d s (Event.invoke v av m)).promises[r]? = some (PromiseState.resolved none) := by
  have hp' : (s.promises ++ [PromiseState.pending])[r]? = some PromiseState.pending :=
    getElem?_append_resolved _ _ _ _ hp
  have hc : (cancelStored
      { s with nextRun := s.nextRun + 1,
               promises := s.promises ++ [PromiseState.pending] }).promises[r]?
      = some (PromiseState.resolved none) := by
    rw [cancelStored_some
      { s with nextRun := s.nextRun + 1,
               promises := s.promises ++ [PromiseState.pending] } t r hst]
    exact settle_getElem?_self _ _ _ hp'
  simp only [step]
  split
  · exact hc
  · exact afterSync_resolved _ _ _ _ _ _ _ _ hc

theorem step_invoke_soleOwner {α ρ μ ε : Type} (d : Nat) (s : MState α ρ μ ε)
    (t r : Nat) (v : α) (av : ρ) (m : μ) (h : SoleOwner s t r) :
    TimerGone t (step d s (Event.invoke v av m)) ∧
    (step d s (Event.invoke v av m)).promises[r]? = some (PromiseState.resolved none) ∧
    NoTrace r (step d s (Event.invoke v av m)) := by
  obtain ⟨h1, h2, h3, h4, h5, h6, h7, h8⟩ := h
  have hTc : TimerGone t (cancelStored
      { s with nextRun := s.nextRun + 1,
               promises := s.promises ++ [PromiseState.pending] }) := by
    rw [cancelStored_some
      { s with nextRun := s.nextRun + 1,
               promises := s.promises ++ [PromiseState.pending] } t r h1]
    refine ⟨h4, ?_⟩
    intro tr htr
    have := (List.mem_filter.mp htr).2
    simpa using this
  have hNc : NoTrace r (cancelStored
      { s with nextRun := s.nextRun + 1,
               promises := s.promises ++ [PromiseState.pending] }) := by
    rw [cancelStored_some
      { s with nextRun := s.nextRun + 1,
               promises := s.promises ++ [PromiseState.pending] } t r h1]
    refine ⟨Nat.lt_succ_of_lt h3, h6, ?_, h7, h8⟩
    intro tr htr
    obtain ⟨hmem, hid⟩ := List.mem_filter.mp htr
    intro hrun
    have hidt : tr.id = t := h5 tr hmem hrun
    simp [hidt] at hid
  refine ⟨?_, step_invoke_cancels d s t r v av m h1 h2, ?_⟩
  · simp only [step]
    split
    · exact hTc
    · exact timerGone_afterSync _ _ _ _ _ _ _ hTc
  · simp only [step]
    split
    · obtain ⟨g1, g2, g3, g4, g5⟩ := hNc
      refine ⟨g1, ?_, g3, g4, g5⟩
      intro j hj
      rcases List.mem_append.mp hj with hm | hm
      · exact g2 j hm
      · simp only [List.mem_singleton] at hm
        subst hm
        exact Nat.ne_of_gt h3
    · exact noTrace_afterSync _ _ _ _ _ _ _ hNc (Nat.ne_of_gt h3)

theorem syncComplete_explicit {α ρ μ ε : Type} (d : Nat) (s : MState α ρ μ ε)
    (fns : List (Validator α ρ μ ε)) (r : Nat) (v : α) (av : ρ) (m : μ)
    (hj : s.syncJobs = [{ run := r, fns := fns, value := v, allValues := av, fieldMeta := m }]) :
    step d s (Event.syncComplete r) =
      match promiseAll (fns.map (fun f => f v av m)) with
      | Except.error _ => { s with syncJobs := [] }
      | Except.ok opts =>
        if (collectErrors opts).length > 0 then
          { s with syncJobs := [],
                   promises := settle s.promises r (some (collectErrors opts)) }
        else
          afterSync d { s with syncJobs := [] } r v av m :=
  syncComplete_single d s _ r hj rfl

theorem asyncComplete_explicit {α ρ μ ε : Type} (d : Nat) (s : MState α ρ μ ε)
    (fns : List (Validator α ρ μ ε)) (r : Nat) (v : α) (av : ρ) (m : μ)
    (hj : s.asyncJobs = [{ run := r, fns := fns, value := v, allValues := av, fieldMeta := m }]) :
    step d s (Event.asyncComplete r) =
      match promiseAll (fns.map (fun f => f v av m)) with
      | Except.error _ => { s with asyncJobs := [] }
      | Except.ok opts =>
        { s with asyncJobs := [],
                 promises := settle s.promises r
                   (if (collectErrors opts).length = 0 then none
                    else some (collectErrors opts)) } :=
  asyncComplete_single d s _ r hj rfl

theorem run2_passes {α ρ μ ε : Type} (cfg : Config α ρ μ ε)
    (v : α) (av : ρ) (m : μ) (opts : List (Option ε))
    (hall : promiseAll (syncResults cfg v av m) = Except.ok opts)
    (hnone : (collectErrors opts).length = 0) :
    runTrace cfg [Event.invoke v av m, Event.syncComplete 0]
      = afterSync cfg.debounceMs (pending1 cfg) 0 v av m := by
  simp only [runTrace, List.foldl]
  by_cases hv : copyIfArray cfg.validators = []
  · rw [invoke_init_nosync cfg v av m hv,
      syncComplete_noop _ _ _ (by rw [afterSync_syncJobs]; rfl)]
  · rw [invoke_init_sync cfg v av m hv,
      syncComplete_explicit cfg.debounceMs _ (copyIfArray cfg.validators) 0 v av m rfl]
    rw [show promiseAll ((copyIfArray cfg.validators).map (fun f => f v av m))
        = Except.ok opts from hall]
    dsimp only
    rw [if_neg (by simp [hnone])]
    rfl

theorem run2_syncErrors {α ρ μ ε : Type} (cfg : Config α ρ μ ε)
    (v : α) (av : ρ) (m : μ) (opts : List (Option ε))
    (hall : promiseAll (syncResults cfg v av m) = Except.ok opts)
    (herr : (collectErrors opts).length > 0) :
    runTrace cfg [Event.invoke v av m, Event.syncComplete 0]
      = { pending1 cfg with
          promises := [PromiseState.resolved (some (collectErrors opts))] } := by
  simp only [runTrace, List.foldl]
  by_cases hv : copyIfArray cfg.validators = []
  · exfalso
    have hres : syncResults cfg v av m = [] := by simp [syncResults, hv]
    rw [hres] at hall
    have h' : (Except.ok ([] : List (Option ε)) : Except Unit (List (Option ε)))
        = Except.ok opts := hall
    injection h' with h''
    rw [← h''] at herr
    simp [collectErrors] at herr
  · rw [invoke_init_sync cfg v av m hv,
      syncComplete_explicit cfg.debounceMs _ (copyIfArray cfg.validators) 0 v av m rfl]
    rw [show promiseAll ((copyIfArray cfg.validators).map (fun f => f v av m))
        = Except.ok opts from hall]
    dsimp only
    rw [if_pos herr]
    rfl

theorem run2_syncFault {α ρ μ ε : Type} (cfg : Config α ρ μ ε)
    (v : α) (av : ρ) (m : μ)
    (hfault : promiseAll (syncResults cfg v av m) = Except.error ()) :
    runTrace cfg [Event.invoke v av m, Event.syncComplete 0] = pending1 cfg := by
  simp only [runTrace, List.foldl]
  by_cases hv : copyIfArray cfg.validators = []
  · exfalso
    have hres : syncResults cfg v av m = [] := by simp [syncResults, hv]
    rw [hres] at hfault
    exact Except.noConfusion
      (show (Except.ok ([] : List (Option ε)) : Except Unit (List (Option ε)))
        = Except.error () from hfault)
  · rw [invoke_init_sync cfg v av m hv,
      syncComplete_explicit cfg.debounceMs _ (copyIfArray cfg.validators) 0 v av m rfl]
    rw [show promiseAll ((copyIfArray cfg.validators).map (fun f => f v av m))
        = Except.error () from hfault]
    rfl

theorem asyncComplete_noop {α ρ μ ε : Type} (d : Nat) (s : MState α ρ μ ε)
    (r : Nat) (h : s.asyncJobs.find? (fun j => j.run == r) = none) :
    step d s (Event.asyncComplete r) = s := by
  simp only [step, h]

theorem fire_explicit {α ρ μ ε : Type} (d : Nat) (s : MState α ρ μ ε)
    (tid delay r : Nat) (fns : List (Validator α ρ μ ε)) (v : α) (av : ρ) (m : μ)
    (h : s.armed = [{ id := tid, delay := delay, run := r, fns := fns,
                      value := v, allValues := av, fieldMeta := m }]) :
    step d s (Event.fire tid) =
      { s with armed := [],
               asyncJobs := s.asyncJobs ++
                 [{ run := r, fns := fns, value := v, allValues := av, fieldMeta := m }],
               invLog := s.invLog ++ (List.range fns.length).map
                 (fun i => { run := r, idx := i, value := v,
                             allValues := av, fieldMeta := m }) } :=
  fire_single d s _ h

theorem step_mutation_shape {α ρ μ ε : Type} (d : Nat) (s : MState α ρ μ ε)
    (e : Event α ρ μ ε) (h : isMutation e = true) :
    ∃ X Y, step d s e = { s with curValidators := X, curAsyncValidators := Y } := by
  cases e with
  | setValidators p => exact ⟨p, s.curAsyncValidators, rfl⟩
  | setAsyncValidators p => exact ⟨s.curValidators, p, rfl⟩
  | invoke v av m => simp [isMutation] at h
  | syncComplete r => simp [isMutation] at h
  | fire tid => simp [isMutation] at h
  | asyncComplete r => simp [isMutation] at h

theorem foldl_mutations_shape {α ρ μ ε : Type} (d : Nat)
    (mid : List (Event α ρ μ ε)) (s : MState α ρ μ ε)
    (h : ∀ e ∈ mid, isMutation e = true) :
    ∃ X Y, mid.foldl (step d) s
      = { s with curValidators := X, curAsyncValidators := Y } := by
  induction mid generalizing s with
  | nil => exact ⟨s.curValidators, s.curAsyncValidators, rfl⟩
  | cons e mid ih =>
    obtain ⟨X1, Y1, h1⟩ := step_mutation_shape d s e (h e (List.mem_cons_self _ _))
    obtain ⟨X, Y, h2⟩ := ih
      { s with curValidators := X1, curAsyncValidators := Y1 }
      (fun e' he' => h e' (List.mem_cons_of_mem _ he'))
    refine ⟨X, Y, ?_⟩
    rw [List.foldl_cons, h1, h2]

theorem quad_promises {α ρ μ ε : Type} (cfg : Config α ρ μ ε)
    (v : α) (av : ρ) (m : μ) (opts : List (Option ε))
    (mid mid' : List (Event α ρ μ ε))
    (hall : promiseAll (syncResults cfg v av m) = Except.ok opts)
    (hnone : (collectErrors opts).length = 0)
    (hmid : ∀ e ∈ mid, isMutation e = true)
    (hmid' : ∀ e ∈ mid', isMutation e = true) :
    (runTrace cfg ([Event.invoke v av m, Event.syncComplete 0] ++ mid
        ++ [Event.fire 0] ++ mid' ++ [Event.asyncComplete 0])).promises
      = finalResolution cfg v av m := by
  have h2 : runTrace cfg [Event.invoke v av m, Event.syncComplete 0]
      = afterSync cfg.debounceMs (pending1 cfg) 0 v av m :=
    run2_passes cfg v av m opts hall hnone
  simp only [runTrace, List.foldl_append, List.foldl_cons, List.foldl_nil] at h2 ⊢
  rw [h2]
  by_cases hasync : (copyIfArray cfg.asyncValidators).length = 0
  · rw [afterSync_noasync _ _ _ _ _ _
      (show copyIfArray ((pending1 cfg).curAsyncValidators) = [] from
        List.length_eq_zero.mp hasync)]
    obtain ⟨X, Y, hmidEq⟩ := foldl_mutations_shape cfg.debounceMs mid _ hmid
    rw [hmidEq]
    rw [fire_noop _ _ 0 (by rfl)]
    obtain ⟨X', Y', hmid'Eq⟩ := foldl_mutations_shape cfg.debounceMs mid' _ hmid'
    rw [hmid'Eq]
    rw [asyncComplete_noop _ _ 0 (by rfl)]
    simp only [finalResolution]
    rw [if_pos hasync]
    rfl
  · rw [afterSync_arm _ _ _ _ _ _
      (show copyIfArray ((pending1 cfg).curAsyncValidators) ≠ [] from
        fun hh => hasync (by rw [show copyIfArray cfg.asyncValidators = [] from hh]; rfl))]
    obtain ⟨X, Y, hmidEq⟩ := foldl_mutations_shape cfg.debounceMs mid _ hmid
    rw [hmidEq]
    rw [fire_explicit cfg.debounceMs _ 0 cfg.debounceMs 0
      (copyIfArray cfg.asyncValidators) v av m rfl]
    obtain ⟨X', Y', hmid'Eq⟩ := foldl_mutations_shape cfg.debounceMs mid' _ hmid'
    rw [hmid'Eq]
    rw [asyncComplete_explicit cfg.debounceMs _
      (copyIfArray cfg.asyncValidators) 0 v av m rfl]
    simp only [finalResolution, asyncResults]
    rw [if_neg hasync]
    cases hres : promiseAll ((copyIfArray cfg.asyncValidators).map (fun f => f v av m)) with
    | error u => rfl
    | ok aopts => rfl

theorem curAgree_afterSync {α ρ μ ε : Type} (d : Nat) (q q' : Nat) (v : α) (av : ρ)
    (m : μ) (s s' : MState α ρ μ ε) (hq : q = q') (h : CurAgree s s') :
    CurAgree (afterSync d s q v av m) (afterSync d s' q' v av m) := by
  subst hq
  obtain ⟨h1, h2, h3, h4, h5, h6, h7, h8, h9, h10⟩ := h
  simp only [afterSync, h10]
  by_cases hc : (copyIfArray s'.curAsyncValidators).length = 0
  · simp only [if_pos hc]
    exact ⟨h1, h2, by rw [h3], h4, h5, h6, h7, h8, h9, h10⟩
  · simp only [if_neg hc]
    exact ⟨h1, by rw [h2], h3, by rw [h2], h5, by rw [h6, h2], h7, h8, h9, h10⟩

theorem curAgree_cancelStored {α ρ μ ε : Type} (s s' : MState α ρ μ ε)
    (h : CurAgree s s') : CurAgree (cancelStored s) (cancelStored s') := by
  obtain ⟨h1, h2, h3, h4, h5, h6, h7, h8, h9, h10⟩ := h
  simp only [cancelStored, h4]
  cases hs : s'.stored with
  | none => exact ⟨h1, h2, h3, by rw [h4, hs], h5, h6, h7, h8, h9, h10⟩
  | some pr =>
    obtain ⟨tid, rid⟩ := pr
    exact ⟨h1, h2, by rw [h3], rfl, h5, by rw [h6], h7, h8, h9, h10⟩

theorem curAgree_step {α ρ μ ε : Type} (d : Nat) (s s' : MState α ρ μ ε)
    (e : Event α ρ μ ε) (h : CurAgree s s') :
    CurAgree (step d s e) (step d s' e) := by
  obtain ⟨h1, h2, h3, h4, h5, h6, h7, h8, h9, h10⟩ := h
  cases e with
  | invoke v av m =>
    have hb : CurAgree
        { s with nextRun := s.nextRun + 1,
                 promises := s.promises ++ [PromiseState.pending] }
        { s' with nextRun := s'.nextRun + 1,
                  promises := s'.promises ++ [PromiseState.pending] } :=
      ⟨by rw [h1], h2, by rw [h3], h4, h5, h6, h7, h8, h9, h10⟩
    have hc := curAgree_cancelStored _ _ hb
    obtain ⟨g1, g2, g3, g4, g5, g6, g7, g8, g9, g10⟩ := hc
    simp only [step]
    by_cases hv : (copyIfArray (cancelStored
        { s' with nextRun := s'.nextRun + 1,
                  promises := s'.promises ++ [PromiseState.pending] }).curValidators).length > 0
    · have hv' : (copyIfArray (cancelStored
          { s with nextRun := s.nextRun + 1,
                   promises := s.promises ++ [PromiseState.pending] }).curValidators).length > 0 := by
        rw [g9]; exact hv
      simp only [if_pos hv, if_pos hv']
      exact ⟨g1, g2, g3, g4, by rw [g5, g9, h1], g6, g7, g8, g9, g10⟩
    · have hv' : ¬ (copyIfArray (cancelStored
          { s with nextRun := s.nextRun + 1,
                   promises := s.promises ++ [PromiseState.pending] }).curValidators).length > 0 := by
        rw [g9]; exact hv
      simp only [if_neg hv, if_neg hv']
      exact curAgree_afterSync _ _ _ v av m _ _ h1
        ⟨g1, g2, g3, g4, g5, g6, g7, g8, g9, g10⟩
  | syncComplete q =>
    simp only [step, h5]
    cases hf : s'.syncJobs.find? (fun j => j.run == q) with
    | none => exact ⟨h1, h2, h3, h4, h5, h6, h7, h8, h9, h10⟩
    | some j =>
      dsimp only
      cases hp : promiseAll (j.fns.map (fun f => f j.value j.allValues j.fieldMeta)) with
      | error u => exact ⟨h1, h2, h3, h4, rfl, h6, h7, h8, h9, h10⟩
      | ok opts =>
        by_cases he : (collectErrors opts).length > 0
        · simp only [if_pos he]
          exact ⟨h1, h2, by rw [h3], h4, rfl, h6, h7, h8, h9, h10⟩
        · simp only [if_neg he]
          exact curAgree_afterSync d q q j.value j.allValues j.fieldMeta _ _ rfl
            ⟨h1, h2, h3, h4, rfl, h6, h7, h8, h9, h10⟩
  | fire tid =>
    simp only [step, h6]
    cases hf : s'.armed.find? (fun tr => tr.id == tid) with
    | none => exact ⟨h1, h2, h3, h4, h5, h6, h7, h8, h9, h10⟩
    | some tr =>
      dsimp only
      exact ⟨h1, h2, h3, h4, h5, rfl, by rw [h7], by rw [h8], h9, h10⟩
  | asyncComplete q =>
    simp only [step, h7]
    cases hf : s'.asyncJobs.find? (fun j => j.run == q) with
    | none => exact ⟨h1, h2, h3, h4, h5, h6, h7, h8, h9, h10⟩
    | some j =>
      dsimp only
      cases hp : promiseAll (j.fns.map (fun f => f j.value j.allValues j.fieldMeta)) with
      | error u => exact ⟨h1, h2, h3, h4, h5, h6, rfl, h8, h9, h10⟩
      | ok opts => exact ⟨h1, h2, by rw [h3], h4, h5, h6, rfl, h8, h9, h10⟩
  | setValidators p =>
    exact ⟨h1, h2, h3, h4, h5, h6, h7, h8, rfl, h10⟩
  | setAsyncValidators p =>
    exact ⟨h1, h2, h3, h4, h5, h6, h7, h8, h9, rfl⟩

theorem curAgree_foldl {α ρ μ ε : Type} (d : Nat) (es : List (Event α ρ μ ε))
    (s s' : MState α ρ μ ε) (h : CurAgree s s') :
    CurAgree (es.foldl (step d) s) (es.foldl (step d) s') := by
  induction es generalizing s s' with
  | nil => exact h
  | cons e es ih => exact ih _ _ (curAgree_step d s s' e h)

/-- C1: for every configuration of synchronous validators in which
every validator returns (none throws) and at least one returns an
error message, the `validate` call resolves to exactly the list of
non-undefined results, in validator-array order (`collectErrors` of
the results in array order), and - no matter which events follow -
no asynchronous validator is ever invoked for that run and no
debounce timer is ever armed for that run. -/
theorem c1_sync_errors_short_circuit {α ρ μ ε : Type} (cfg : Config α ρ μ ε)
    (v : α) (av : ρ) (m : μ) (opts : List (Option ε)) (es : List (Event α ρ μ ε))
    (hall : promiseAll (syncResults cfg v av m) = Except.ok opts)
    (herr : (collectErrors opts).length > 0) :
    (runTrace cfg ([Event.invoke v av m, Event.syncComplete 0] ++ es)).promises[0]?
        = some (PromiseState.resolved (some (collectErrors opts))) ∧
    (∀ en ∈ (runTrace cfg ([Event.invoke v av m, Event.syncComplete 0] ++ es)).invLog,
        en.run ≠ 0) ∧
    (∀ tr ∈ (runTrace cfg ([Event.invoke v av m, Event.syncComplete 0] ++ es)).armed,
        tr.run ≠ 0) := by
  have h2 := run2_syncErrors cfg v av m opts hall herr
  have hfold : runTrace cfg ([Event.invoke v av m, Event.syncComplete 0] ++ es)
      = es.foldl (step cfg.debounceMs)
          (runTrace cfg [Event.invoke v av m, Event.syncComplete 0]) := by
    simp [runTrace, List.foldl_append]
  rw [hfold, h2]
  have hNo : NoTrace 0 ({ pending1 cfg with
      promises := [PromiseState.resolved (some (collectErrors opts))] } : MState α ρ μ ε) := by
    refine ⟨Nat.one_pos, ?_, ?_, ?_, ?_⟩ <;>
      (intro x hx; simp [pending1] at hx)
  have hRes := foldl_resolved cfg.debounceMs es
    ({ pending1 cfg with
       promises := [PromiseState.resolved (some (collectErrors opts))] } : MState α ρ μ ε)
    0 (some (collectErrors opts)) rfl
  have hFin := noTrace_foldl cfg.debounceMs es _ 0 hNo
  exact ⟨hRes, hFin.2.2.2.2, hFin.2.2.1⟩

/-- Witness for C1 at a concrete input: validators return an error
5, "no error", an error 6; the run resolves to the ordered list
[5, 6]; even after the scheduler tries to fire a timer and complete
an asynchronous phase, no asynchronous validator was invoked for the
run and no timer is armed for it. -/
theorem c1_witness :
    promiseAll (syncResults cfgSyncFail 1 0 0) = Except.ok [some 5, none, some 6] ∧
    (collectErrors [some 5, none, some 6]).length > 0 ∧
    ((runTrace cfgSyncFail ([Event.invoke 1 0 0, Event.syncComplete 0]
        ++ [Event.fire 0, Event.asyncComplete 0])).promises[0]?
        = some (PromiseState.resolved (some [5, 6])) ∧
     (∀ en ∈ (runTrace cfgSyncFail ([Event.invoke 1 0 0, Event.syncComplete 0]
        ++ [Event.fire 0, Event.asyncComplete 0])).invLog, en.run ≠ 0) ∧
     (∀ tr ∈ (runTrace cfgSyncFail ([Event.invoke 1 0 0, Event.syncComplete 0]
        ++ [Event.fire 0, Event.asyncComplete 0])).armed, tr.run ≠ 0)) :=
  ⟨rfl, by decide,
    c1_sync_errors_short_circuit cfgSyncFail 1 0 0 [some 5, none, some 6]
      [Event.fire 0, Event.asyncComplete 0] rfl (by decide)⟩

/-- C2 counterexample: run 0 is superseded by a later `validate` call
(run 1; the final `nextRun = 2` records that two calls were made, the
second arriving while run 0's synchronous phase was still suspended),
yet run 0's asynchronous result - the error list [7] - is delivered:
its promise resolves with it.  The second call's cancellation step
found no stored callback because run 0 had not yet reached
`storeResetTimeout`, so the claim fails on this interleaving. -/
theorem c2_counterexample :
    (runTrace cfgRace (esRace ++ [Event.fire 0, Event.asyncComplete 0])).promises[0]?
        = some (PromiseState.resolved (some [7])) ∧
    (runTrace cfgRace (esRace ++ [Event.fire 0, Event.asyncComplete 0])).nextRun = 2 :=
  ⟨rfl, rfl⟩

/-- C2 amended: when the superseding `validate` call arrives while the
superseded run `r` owns the stored cancellation callback (that is,
after `r` armed its debounce window, with no later run having stored
since) and `r` is still unresolved - including the case where `r`'s
timer has already fired and its asynchronous validators are still in
flight - the superseding call resolves `r` to "no error" and `r`'s
asynchronous result is never delivered, whatever happens later. -/
theorem c2_superseded_not_delivered {α ρ μ ε : Type} (d : Nat) (s : MState α ρ μ ε)
    (t r : Nat) (v : α) (av : ρ) (m : μ) (es : List (Event α ρ μ ε))
    (hst : s.stored = some (t, r))
    (hp : s.promises[r]? = some PromiseState.pending) :
    (es.foldl (step d) (step d s (Event.invoke v av m))).promises[r]?
      = some (PromiseState.resolved none) :=
  foldl_resolved d es _ r none (step_invoke_cancels d s t r v av m hst hp)

/-- Witness for C2 at a concrete input: run 0's timer has fired and
its asynchronous validator is in flight when the superseding call
(run 1) arrives; run 0 resolves to "no error" and stays there even
after its asynchronous phase completes. -/
theorem c2_witness :
    (runTrace cfgRace [Event.invoke 1 0 0, Event.syncComplete 0, Event.fire 0]).stored
        = some (0, 0) ∧
    (runTrace cfgRace [Event.invoke 1 0 0, Event.syncComplete 0,
        Event.fire 0]).promises[0]? = some PromiseState.pending ∧
    ([Event.asyncComplete 0].foldl (step cfgRace.debounceMs)
        (step cfgRace.debounceMs
          (runTrace cfgRace [Event.invoke 1 0 0, Event.syncComplete 0, Event.fire 0])
          (Event.invoke 2 0 0))).promises[0]?
      = some (PromiseState.resolved none) :=
  ⟨rfl, rfl,
    c2_superseded_not_delivered cfgRace.debounceMs
      (runTrace cfgRace [Event.invoke 1 0 0, Event.syncComplete 0, Event.fire 0])
      0 0 2 0 0 [Event.asyncComplete 0] rfl rfl⟩

/-- C3 counterexample: after two overlapping `validate` calls (the
second arriving while the first's synchronous phase is suspended on
its await) both runs arm a timer, so two debounce windows are
outstanding at once, for two different runs. -/
theorem c3_counterexample :
    (runTrace cfgRace esRace).armed.length = 2 ∧
    (runTrace cfgRace esRace).armed.map (fun tr => tr.run) = [0, 1] :=
  ⟨rfl, rfl⟩

/-- C3 amended: every `validate` call synchronously clears the timer
named by the stored cancellation callback before doing anything else
(second conjunct, about the cancellation step `cancelStored` that
`step` performs first on an invocation); and under serial scheduling
- no `validate` call arriving while an earlier call's synchronous
phase is still suspended - at most one debounce timer is outstanding
at any instant (first conjunct, for every prefix of the schedule).
Without the serial hypothesis the invariant fails: see the
counterexample. -/
theorem c3_single_window {α ρ μ ε : Type} (cfg : Config α ρ μ ε)
    (es es' : List (Event α ρ μ ε))
    (hser : SerialOK cfg.debounceMs (MState.init cfg) (es ++ es')) :
    (runTrace cfg es).armed.length ≤ 1 ∧
    (∀ (s : MState α ρ μ ε) (tid rid : Nat), s.stored = some (tid, rid) →
      ∀ tr ∈ (cancelStored s).armed, tr.id ≠ tid) := by
  constructor
  · have hinv : SInv (MState.init cfg) :=
      ⟨by intro tr htr; simp [MState.init] at htr, fun _ => rfl,
        Nat.zero_le 1, Nat.zero_le 1⟩
    have h := sInv_serial_foldl cfg.debounceMs es (MState.init cfg) hinv
      (serialOK_append_left _ _ _ _ hser)
    exact h.2.2.2
  · intro s tid rid hst tr htr
    rw [cancelStored_some s tid rid hst] at htr
    have := (List.mem_filter.mp htr).2
    simpa using this

/-- Witness for C3 at a concrete serial schedule: two consecutive
complete `validate` calls; after the first completes, at most one
timer is armed, and the stored-timer cancellation fact holds. -/
theorem c3_witness :
    SerialOK cfgRace.debounceMs (MState.init cfgRace)
      ([Event.invoke 1 0 0, Event.syncComplete 0]
        ++ [Event.invoke 2 0 0, Event.syncComplete 1]) ∧
    (runTrace cfgRace [Event.invoke 1 0 0, Event.syncComplete 0]).armed.length ≤ 1 ∧
    (∀ (s : MState Nat Nat Nat Nat) (tid rid : Nat), s.stored = some (tid, rid) →
      ∀ tr ∈ (cancelStored s).armed, tr.id ≠ tid) := by
  have hser : SerialOK cfgRace.debounceMs (MState.init cfgRace)
      ([Event.invoke 1 0 0, Event.syncComplete 0]
        ++ [Event.invoke 2 0 0, Event.syncComplete 1]) :=
    ⟨by decide, by decide, by decide, by decide, trivial⟩
  obtain ⟨ha, hb⟩ := c3_single_window cfgRace
    [Event.invoke 1 0 0, Event.syncComplete 0]
    [Event.invoke 2 0 0, Event.syncComplete 1] hser
  exact ⟨hser, ha, hb⟩

/-- C4: when every synchronous validator passes and at least one
asynchronous validator is configured, exactly one timer has been
allocated and scheduled (`nextTimer = 1` and `armed` is the single
timer with handle 0), its delay is the configured
`asyncValidatorsDebounce` (which defaults to 200 when the prop is not
supplied), and firing it without a superseding call logs exactly one
invocation of each of the N asynchronous validators, carrying the
triggering value, the form-values snapshot and the field metadata
captured at the start of the run. -/
theorem c4_debounce_schedule {α ρ μ ε : Type} (cfg : Config α ρ μ ε)
    (v : α) (av : ρ) (m : μ) (opts : List (Option ε))
    (hall : promiseAll (syncResults cfg v av m) = Except.ok opts)
    (hnone : (collectErrors opts).length = 0)
    (hasync : copyIfArray cfg.asyncValidators ≠ []) :
    (runTrace cfg [Event.invoke v av m, Event.syncComplete 0]).nextTimer = 1 ∧
    (runTrace cfg [Event.invoke v av m, Event.syncComplete 0]).armed
      = [{ id := 0, delay := cfg.debounceMs, run := 0,
           fns := copyIfArray cfg.asyncValidators,
           value := v, allValues := av, fieldMeta := m }] ∧
    (cfg.asyncValidatorsDebounce = none → cfg.debounceMs = 200) ∧
    (step cfg.debounceMs (runTrace cfg [Event.invoke v av m, Event.syncComplete 0])
        (Event.fire 0)).invLog
      = (List.range (copyIfArray cfg.asyncValidators).length).map
          (fun i => { run := 0, idx := i, value := v, allValues := av,
                      fieldMeta := m }) := by
  have h2 := run2_passes cfg v av m opts hall hnone
  have harm := afterSync_arm cfg.debounceMs (pending1 cfg) 0 v av m
    (show copyIfArray (pending1 cfg).curAsyncValidators ≠ [] from hasync)
  rw [h2, harm]
  refine ⟨rfl, rfl, fun h => by simp [Config.debounceMs, h], ?_⟩
  rw [fire_explicit cfg.debounceMs _ 0 cfg.debounceMs 0
    (copyIfArray cfg.asyncValidators) v av m rfl]
  rfl

/-- Witness for C4 at a concrete input with a custom debounce of 300
and two asynchronous validators: one timer with handle 0 and delay
300 is armed, and firing it logs exactly one invocation of each of
the two asynchronous validators with the triggering data. -/
theorem c4_witness :
    promiseAll (syncResults cfgCustom 4 8 9) = Except.ok [none] ∧
    (collectErrors ([none] : List (Option Nat))).length = 0 ∧
    copyIfArray cfgCustom.asyncValidators ≠ [] ∧
    ((runTrace cfgCustom [Event.invoke 4 8 9, Event.syncComplete 0]).nextTimer = 1 ∧
     (runTrace cfgCustom [Event.invoke 4 8 9, Event.syncComplete 0]).armed
       = [{ id := 0, delay := cfgCustom.debounceMs, run := 0,
            fns := copyIfArray cfgCustom.asyncValidators,
            value := 4, allValues := 8, fieldMeta := 9 }] ∧
     (cfgCustom.asyncValidatorsDebounce = none → cfgCustom.debounceMs = 200) ∧
     (step cfgCustom.debounceMs
         (runTrace cfgCustom [Event.invoke 4 8 9, Event.syncComplete 0])
         (Event.fire 0)).invLog
       = (List.range (copyIfArray cfgCustom.asyncValidators).length).map
           (fun i => { run := 0, idx := i, value := 4, allValues := 8,
                       fieldMeta := 9 })) :=
  ⟨rfl, by decide, fun h => List.noConfusion h,
    c4_debounce_schedule cfgCustom 4 8 9 [none] rfl (by decide)
      (fun h => List.noConfusion h)⟩

/-- C5 counterexample: run 0 armed a debounce window and was
superseded before the window fired (run 1's `validate` call arrived
first, while run 0's synchronous phase was suspended), yet the window
fires, run 0's asynchronous validator is invoked (the log holds an
entry for run 0), and run 0 resolves to its asynchronous error list
rather than to "no error". -/
theorem c5_counterexample :
    (runTrace cfgRace (esRace ++ [Event.fire 0, Event.asyncComplete 0])).invLog.map
        (fun en => (en.run, en.idx, en.value)) = [(0, 0, 1)] ∧
    ¬ (runTrace cfgRace (esRace ++ [Event.fire 0, Event.asyncComplete 0])).promises[0]?
        = some (PromiseState.resolved none) :=
  ⟨rfl, by decide⟩

/-- C5 amended: for a run `r` that armed the debounce window and still
owns the stored cancellation callback, a superseding `validate` call
cancels the timer (handle `t` is never armed again, so its callback
never fires), resolves `r` to "no error", and `r`'s asynchronous
validators are never invoked - whatever events follow.  (As stated,
over all interleavings, the claim is false: see the counterexample,
where the superseding call precedes the arming.) -/
theorem c5_cancel_on_supersede {α ρ μ ε : Type} (d : Nat) (s : MState α ρ μ ε)
    (t r : Nat) (v : α) (av : ρ) (m : μ) (es : List (Event α ρ μ ε))
    (h : SoleOwner s t r) :
    (∀ tr ∈ (es.foldl (step d) (step d s (Event.invoke v av m))).armed, tr.id ≠ t) ∧
    (es.foldl (step d) (step d s (Event.invoke v av m))).promises[r]?
      = some (PromiseState.resolved none) ∧
    (∀ en ∈ (es.foldl (step d) (step d s (Event.invoke v av m))).invLog,
      en.run ≠ r) := by
  obtain ⟨hTG, hPr, hNT⟩ := step_invoke_soleOwner d s t r v av m h
  exact ⟨(timerGone_foldl d es _ t hTG).2, foldl_resolved d es _ r none hPr,
    (noTrace_foldl d es _ r hNT).2.2.2.2⟩

/-- Witness for C5 at a concrete input: run 0 armed its window
directly at invocation (no synchronous validators); the superseding
call cancels timer 0, resolves run 0 to "no error", and even a
subsequent attempt to fire handle 0 invokes nothing for run 0. -/
theorem c5_witness :
    SoleOwner (runTrace cfgAsyncOnly [Event.invoke 1 0 0]) 0 0 ∧
    ((∀ tr ∈ ([Event.fire 0].foldl (step cfgAsyncOnly.debounceMs)
        (step cfgAsyncOnly.debounceMs (runTrace cfgAsyncOnly [Event.invoke 1 0 0])
          (Event.invoke 2 0 0))).armed, tr.id ≠ 0) ∧
     ([Event.fire 0].foldl (step cfgAsyncOnly.debounceMs)
        (step cfgAsyncOnly.debounceMs (runTrace cfgAsyncOnly [Event.invoke 1 0 0])
          (Event.invoke 2 0 0))).promises[0]?
       = some (PromiseState.resolved none) ∧
     (∀ en ∈ ([Event.fire 0].foldl (step cfgAsyncOnly.debounceMs)
        (step cfgAsyncOnly.debounceMs (runTrace cfgAsyncOnly [Event.invoke 1 0 0])
          (Event.invoke 2 0 0))).invLog, en.run ≠ 0)) := by
  have h : SoleOwner (runTrace cfgAsyncOnly [Event.invoke 1 0 0]) 0 0 :=
    ⟨rfl, rfl, by decide, by decide, by decide, by decide, by decide, by decide⟩
  exact ⟨h, c5_cancel_on_supersede cfgAsyncOnly.debounceMs
    (runTrace cfgAsyncOnly [Event.invoke 1 0 0]) 0 0 2 0 0 [Event.fire 0] h⟩

/-- C6: the aggregation step used in both phases (`collectErrors`,
embedding `results.filter((v) => v !== undefined)`) keeps exactly the
non-"no error" results, preserving their order (first conjunct, for
every result list in either phase); and when every asynchronous
validator settles, the run resolves to the filtered asynchronous
error list when it is non-empty and to the distinguished "no error"
value - never to an empty list - when it is empty (second conjunct). -/
theorem c6_aggregation {α ρ μ ε : Type} (cfg : Config α ρ μ ε)
    (v : α) (av : ρ) (m : μ) (opts aopts : List (Option ε))
    (hall : promiseAll (syncResults cfg v av m) = Except.ok opts)
    (hnone : (collectErrors opts).length = 0)
    (haall : promiseAll (asyncResults cfg v av m) = Except.ok aopts)
    (hasync : copyIfArray cfg.asyncValidators ≠ []) :
    (∀ (rs : List (Option ε)),
      (collectErrors rs).map some = rs.filter (fun o => o.isSome)) ∧
    (runTrace cfg [Event.invoke v av m, Event.syncComplete 0, Event.fire 0,
        Event.asyncComplete 0]).promises
      = [PromiseState.resolved
          (if (collectErrors aopts).length = 0 then none
           else some (collectErrors aopts))] := by
  constructor
  · intro rs
    induction rs with
    | nil => rfl
    | cons o rs ih =>
      cases o with
      | none => simpa [collectErrors, List.filterMap_cons, List.filter_cons] using ih
      | some e => simpa [collectErrors, List.filterMap_cons, List.filter_cons] using ih
  · have hq := quad_promises cfg v av m opts [] [] hall hnone
      (by intro e he; simp at he) (by intro e he; simp at he)
    have hq' : (runTrace cfg [Event.invoke v av m, Event.syncComplete 0, Event.fire 0,
        Event.asyncComplete 0]).promises = finalResolution cfg v av m := hq
    rw [hq']
    simp only [finalResolution]
    rw [if_neg (fun hh => hasync (List.length_eq_zero.mp hh)), haall]

/-- Witness for C6 at a concrete input: four asynchronous validators
return "no error", 5, "no error", 6; the run resolves to the ordered
filtered list [5, 6]; and the filter characterization holds, e.g. on
the result list itself. -/
theorem c6_witness :
    promiseAll (syncResults cfgMix 1 0 0) = Except.ok [none] ∧
    (collectErrors ([none] : List (Option Nat))).length = 0 ∧
    promiseAll (asyncResults cfgMix 1 0 0) = Except.ok [none, some 5, none, some 6] ∧
    copyIfArray cfgMix.asyncValidators ≠ [] ∧
    ((∀ (rs : List (Option Nat)),
        (collectErrors rs).map some = rs.filter (fun o => o.isSome)) ∧
     (runTrace cfgMix [Event.invoke 1 0 0, Event.syncComplete 0, Event.fire 0,
        Event.asyncComplete 0]).promises
       = [PromiseState.resolved
           (if (collectErrors [none, some 5, none, some 6]).length = 0 then none
            else some (collectErrors [none, some 5, none, some 6]))]) :=
  ⟨rfl, by decide, rfl, fun h => List.noConfusion h,
    c6_aggregation cfgMix 1 0 0 [none] [none, some 5, none, some 6] rfl
      (by decide) rfl (fun h => List.noConfusion h)⟩

/-- C7 counterexample: with a throwing synchronous validator the
claim fails - the promise returned by `validate` does not become
rejected; it is simply never settled.  After the rejected
`Promise.all` kills the executor the run has no suspended phase left
(`syncJobs = []`), no timer, and the promise is still pending, not
rejected: `new Promise` discards the rejection of its `async`
executor function. -/
theorem c7_counterexample :
    (runTrace cfgThrow [Event.invoke 1 0 0, Event.syncComplete 0]).promises
      = [PromiseState.pending] ∧
    (runTrace cfgThrow [Event.invoke 1 0 0, Event.syncComplete 0]).syncJobs = [] ∧
    (runTrace cfgThrow [Event.invoke 1 0 0, Event.syncComplete 0]).armed = [] ∧
    ¬ (runTrace cfgThrow [Event.invoke 1 0 0, Event.syncComplete 0]).promises
      = [PromiseState.rejected] :=
  ⟨rfl, rfl, rfl, by decide⟩

/-- C7 amended: a validator throwing or rejecting is not caught and
not converted into an error message, but the fault does not propagate
either - no promise handed out by `validate` ever becomes rejected
under any configuration and schedule (first conjunct), and a run
whose synchronous phase faults never settles at all, no matter what
happens afterwards (second conjunct): the executor's rejection is
discarded by the Promise constructor. -/
theorem c7_fault_not_caught {α ρ μ ε : Type} (cfg cfg2 : Config α ρ μ ε)
    (es es2 : List (Event α ρ μ ε)) (v : α) (av : ρ) (m : μ)
    (hfault : promiseAll (syncResults cfg2 v av m) = Except.error ()) :
    PromiseState.rejected ∉ (runTrace cfg es).promises ∧
    (runTrace cfg2 ([Event.invoke v av m, Event.syncComplete 0] ++ es2)).promises[0]?
      = some PromiseState.pending := by
  constructor
  · exact rejected_not_mem_foldl _ es _ (by simp [MState.init])
  · have h2 := run2_syncFault cfg2 v av m hfault
    have hfold : runTrace cfg2 ([Event.invoke v av m, Event.syncComplete 0] ++ es2)
        = es2.foldl (step cfg2.debounceMs)
            (runTrace cfg2 [Event.invoke v av m, Event.syncComplete 0]) := by
      simp [runTrace, List.foldl_append]
    rw [hfold, h2]
    have hdead : DeadPending 0 (pending1 cfg2) :=
      ⟨rfl, fun tid heq => by simp [pending1] at heq, Nat.one_pos,
        fun x hx => by simp [pending1] at hx,
        fun x hx => by simp [pending1] at hx,
        fun x hx => by simp [pending1] at hx⟩
    exact (deadPending_foldl cfg2.debounceMs es2 _ 0 hdead).1

/-- Witness for C7 at a concrete input: no promise of a full run of
the always-passing configuration is rejected, and the run with the
throwing validator stays pending even after a further `validate` call
completes a full validation cycle. -/
theorem c7_witness :
    promiseAll (syncResults cfgThrow 1 0 0) = Except.error () ∧
    (PromiseState.rejected ∉ (runTrace cfgMut [Event.invoke 3 0 0,
        Event.syncComplete 0, Event.fire 0, Event.asyncComplete 0]).promises ∧
     (runTrace cfgThrow ([Event.invoke 1 0 0, Event.syncComplete 0]
        ++ [Event.invoke 2 0 0, Event.syncComplete 1])).promises[0]?
       = some PromiseState.pending) :=
  ⟨rfl, c7_fault_not_caught cfgMut cfgThrow
    [Event.invoke 3 0 0, Event.syncComplete 0, Event.fire 0, Event.asyncComplete 0]
    [Event.invoke 2 0 0, Event.syncComplete 1] 1 0 0 rfl⟩

/-- C8: when both validator props are absent, empty or otherwise not
arrays (their guarded copy is empty), a `validate` call resolves
immediately to "no error" and no timer is scheduled: none is armed
and the timer allocation counter never moved. -/
theorem c8_no_validators_resolves_none {α ρ μ ε : Type} (cfg : Config α ρ μ ε)
    (v : α) (av : ρ) (m : μ)
    (hv : copyIfArray cfg.validators = [])
    (ha : copyIfArray cfg.asyncValidators = []) :
    (runTrace cfg [Event.invoke v av m]).promises = [PromiseState.resolved none] ∧
    (runTrace cfg [Event.invoke v av m]).armed = [] ∧
    (runTrace cfg [Event.invoke v av m]).nextTimer = 0 := by
  have h1 : runTrace cfg [Event.invoke v av m]
      = step cfg.debounceMs (MState.init cfg) (Event.invoke v av m) := rfl
  rw [h1, invoke_init_nosync cfg v av m hv,
    afterSync_noasync _ _ _ _ _ _
      (show copyIfArray (pending1 cfg).curAsyncValidators = [] from ha)]
  exact ⟨rfl, rfl, rfl⟩

/-- Witness for C8 at a concrete input, with a non-array `validators`
prop and an empty `asyncValidators` array: the call resolves to "no
error" and no timer was ever created. -/
theorem c8_witness :
    copyIfArray cfgNonArr.validators = [] ∧
    copyIfArray cfgNonArr.asyncValidators = [] ∧
    ((runTrace cfgNonArr [Event.invoke 42 0 0]).promises
      = [PromiseState.resolved none] ∧
     (runTrace cfgNonArr [Event.invoke 42 0 0]).armed = [] ∧
     (runTrace cfgNonArr [Event.invoke 42 0 0]).nextTimer = 0) :=
  ⟨rfl, rfl, c8_no_validators_resolves_none cfgNonArr 42 0 0 rfl rfl⟩

/-- C9: the orchestrator reads the `validators` and `asyncValidators`
props only through the `Array.isArray` guard, so two configurations
whose props agree after that guard - in particular a non-array value
versus an absent/empty array - produce identical promises, identical
asynchronous-invocation logs and identical timers on every schedule:
no exception, the phase is skipped, and `validate` resolves normally. -/
theorem c9_nonarray_as_empty {α ρ μ ε : Type} (cfg : Config α ρ μ ε)
    (jv jv2 ja ja2 : PropValue (List (Validator α ρ μ ε)))
    (es : List (Event α ρ μ ε))
    (hv : copyIfArray jv = copyIfArray jv2)
    (ha : copyIfArray ja = copyIfArray ja2) :
    (runTrace { cfg with validators := jv, asyncValidators := ja } es).promises
      = (runTrace { cfg with validators := jv2, asyncValidators := ja2 } es).promises ∧
    (runTrace { cfg with validators := jv, asyncValidators := ja } es).invLog
      = (runTrace { cfg with validators := jv2, asyncValidators := ja2 } es).invLog ∧
    (runTrace { cfg with validators := jv, asyncValidators := ja } es).armed
      = (runTrace { cfg with validators := jv2, asyncValidators := ja2 } es).armed := by
  have hinit : CurAgree
      (MState.init { cfg with validators := jv, asyncValidators := ja })
      (MState.init { cfg with validators := jv2, asyncValidators := ja2 }) :=
    ⟨rfl, rfl, rfl, rfl, rfl, rfl, rfl, rfl, hv, ha⟩
  have h := curAgree_foldl
    ({ cfg with validators := jv, asyncValidators := ja } : Config α ρ μ ε).debounceMs
    es _ _ hinit
  exact ⟨h.2.2.1, h.2.2.2.2.2.2.2.1, h.2.2.2.2.2.1⟩

/-- Witness for C9 at a concrete input: replacing both props of the
empty configuration by non-array values leaves the promises, the
invocation log and the timers of a full schedule unchanged. -/
theorem c9_witness :
    copyIfArray cfgBothNonArr.validators = copyIfArray cfgNone.validators ∧
    copyIfArray cfgBothNonArr.asyncValidators = copyIfArray cfgNone.asyncValidators ∧
    ((runTrace cfgBothNonArr
        [Event.invoke 1 0 0, Event.syncComplete 0, Event.fire 0]).promises
      = (runTrace cfgNone
          [Event.invoke 1 0 0, Event.syncComplete 0, Event.fire 0]).promises ∧
     (runTrace cfgBothNonArr
        [Event.invoke 1 0 0, Event.syncComplete 0, Event.fire 0]).invLog
      = (runTrace cfgNone
          [Event.invoke 1 0 0, Event.syncComplete 0, Event.fire 0]).invLog ∧
     (runTrace cfgBothNonArr
        [Event.invoke 1 0 0, Event.syncComplete 0, Event.fire 0]).armed
      = (runTrace cfgNone
          [Event.invoke 1 0 0, Event.syncComplete 0, Event.fire 0]).armed) :=
  ⟨rfl, rfl,
    c9_nonarray_as_empty cfgNone PropValue.nonArray (PropValue.arr [])
      PropValue.nonArray (PropValue.arr [])
      [Event.invoke 1 0 0, Event.syncComplete 0, Event.fire 0] rfl rfl⟩

/-- C10 counterexample: the `asyncValidators` copy is not taken at
invocation start - it is taken only after the synchronous-phase
await.  Mutating the caller's array between invocation start and the
synchronous phase's completion changes which asynchronous validators
the run invokes: with the mutation the run resolves to [9], without
it to "no error", refuting the claim that two runs differing only in
post-invocation-start mutations produce the same outcome. -/
theorem c10_counterexample :
    (runTrace cfgMut [Event.invoke 1 0 0,
        Event.setAsyncValidators (PropValue.arr [vErr 9]),
        Event.syncComplete 0, Event.fire 0, Event.asyncComplete 0]).promises
      = [PromiseState.resolved (some [9])] ∧
    (runTrace cfgMut [Event.invoke 1 0 0, Event.syncComplete 0, Event.fire 0,
        Event.asyncComplete 0]).promises
      = [PromiseState.resolved none] :=
  ⟨rfl, rfl⟩

/-- C10 amended: the `validators` copy is taken at invocation start
and the `asyncValidators` copy when the synchronous phase completes,
before the debounce window is armed; mutating the caller's arrays
after those snapshots - during the debounce window or while the
asynchronous validators are in flight - does not change which
validators the run invokes or its outcome: the mutated schedule
resolves exactly like the mutation-free one. -/
theorem c10_snapshot_isolation {α ρ μ ε : Type} (cfg : Config α ρ μ ε)
    (v : α) (av : ρ) (m : μ) (opts : List (Option ε))
    (mid mid' : List (Event α ρ μ ε))
    (hall : promiseAll (syncResults cfg v av m) = Except.ok opts)
    (hnone : (collectErrors opts).length = 0)
    (hmid : ∀ e ∈ mid, isMutation e = true)
    (hmid' : ∀ e ∈ mid', isMutation e = true) :
    (runTrace cfg ([Event.invoke v av m, Event.syncComplete 0] ++ mid
        ++ [Event.fire 0] ++ mid' ++ [Event.asyncComplete 0])).promises
      = (runTrace cfg [Event.invoke v av m, Event.syncComplete 0, Event.fire 0,
          Event.asyncComplete 0]).promises := by
  have h1 := quad_promises cfg v av m opts mid mid' hall hnone hmid hmid'
  have h2 : (runTrace cfg [Event.invoke v av m, Event.syncComplete 0, Event.fire 0,
      Event.asyncComplete 0]).promises = finalResolution cfg v av m :=
    quad_promises cfg v av m opts [] [] hall hnone
      (by intro e he; simp at he) (by intro e he; simp at he)
  exact h1.trans h2.symm

/-- Witness for C10 at a concrete input: mutating both props during
the debounce window and while the asynchronous phase is in flight
leaves the run's outcome unchanged. -/
theorem c10_witness :
    promiseAll (syncResults cfgMut 1 0 0) = Except.ok [none] ∧
    (collectErrors ([none] : List (Option Nat))).length = 0 ∧
    (∀ e ∈ [Event.setAsyncValidators (PropValue.arr [vErr 9])],
      isMutation e = true) ∧
    (∀ e ∈ [Event.setValidators
        (PropValue.nonArray : PropValue (List (Validator Nat Nat Nat Nat)))],
      isMutation e = true) ∧
    (runTrace cfgMut ([Event.invoke 1 0 0, Event.syncComplete 0]
        ++ [Event.setAsyncValidators (PropValue.arr [vErr 9])]
        ++ [Event.fire 0] ++ [Event.setValidators PropValue.nonArray]
        ++ [Event.asyncComplete 0])).promises
      = (runTrace cfgMut [Event.invoke 1 0 0, Event.syncComplete 0, Event.fire 0,
          Event.asyncComplete 0]).promises := by
  have hmid : ∀ e ∈ [Event.setAsyncValidators (PropValue.arr [vErr 9])],
      isMutation e = true := by
    intro e he
    rcases List.mem_singleton.mp he with rfl
    rfl
  have hmid' : ∀ e ∈ [Event.setValidators
      (PropValue.nonArray : PropValue (List (Validator Nat Nat Nat Nat)))],
      isMutation e = true := by
    intro e he
    rcases List.mem_singleton.mp he with rfl
    rfl
  exact ⟨rfl, by decide, hmid, hmid',
    c10_snapshot_isolation cfgMut 1 0 0 [none]
      [Event.setAsyncValidators (PropValue.arr [vErr 9])]
      [Event.setValidators PropValue.nonArray] rfl (by decide) hmid hmid'⟩
